import Mathlib

/-!
Verification of core data structures and algorithms of the Audyn audio
capture engine, as a shallow embedding of the C sources.

Sources embedded here:
  - src/core/audio_queue.c    (bounded SPSC ring queue of pointers)
  - src/core/frame_pool.c     (fixed-size frame pool with free stack)
  - src/core/jitter_buffer.c  (RTP jitter buffer insert path)
  - src/core/ptp_clock.c      (RTP timestamp to PTP nanosecond mapping)
  - src/core/archive_policy.c (rotation scheduling)
  - src/sink/wav_sink.c       (PCM16 WAV writer)
  - src/sink/opus_sink.c      (Ogg Opus writer: packet/granulepos accounting)

Machine integers are modelled as Nat with explicit reductions modulo
2 to the relevant power exactly where the C computation can wrap.
Pointer-valued arguments that may be NULL are modelled as Option.
-/

namespace Audyn

/-! ## audio_queue.c : bounded SPSC ring queue

`struct audyn_audio_queue` holds `cap` slots (usable capacity `cap - 1`),
a slot array and two indices `head` (consumer) and `tail` (producer).
Handles are `void *`; we model them as `Nat`, with `0` standing for NULL.
-/

structure AudioQueue where
  cap : Nat
  slots : Nat → Nat
  head : Nat
  tail : Nat

/-- `next_idx` from audio_queue.c: increment with wrap at `cap`. -/
def next_idx (cur cap : Nat) : Nat :=
  if cur + 1 = cap then 0 else cur + 1

/-- `audyn_audio_queue_create`: rejects capacity below 2, otherwise
returns an empty queue with zeroed slot array (calloc). -/
def audyn_audio_queue_create (capacity : Nat) : Option AudioQueue :=
  if capacity < 2 then none
  else some { cap := capacity, slots := fun _ => 0, head := 0, tail := 0 }

/-- Body of `audyn_audio_queue_push` after the NULL guards: returns the
updated queue and the C `int` result (1 accepted, 0 rejected). -/
def queue_push (q : AudioQueue) (ptr : Nat) : AudioQueue × Nat :=
  let nt := next_idx q.tail q.cap
  if nt = q.head then (q, 0)
  else ({ q with slots := fun j => if j = q.tail then ptr else q.slots j
               , tail := nt }, 1)

/-- `audyn_audio_queue_push` including the `!q || !ptr` guard. -/
def audyn_audio_queue_push (q : Option AudioQueue) (ptr : Nat) :
    Option AudioQueue × Nat :=
  match q with
  | none => (none, 0)
  | some q =>
    if ptr = 0 then (some q, 0)
    else
      let r := queue_push q ptr
      (some r.1, r.2)

/-- Body of `audyn_audio_queue_pop` after the NULL guard: returns the
updated queue and the popped handle (`none` for the NULL return). -/
def queue_pop (q : AudioQueue) : AudioQueue × Option Nat :=
  if q.head = q.tail then (q, none)
  else ({ q with head := next_idx q.head q.cap }, some (q.slots q.head))

/-- `audyn_audio_queue_pop` including the `!q` guard. -/
def audyn_audio_queue_pop (q : Option AudioQueue) :
    Option AudioQueue × Option Nat :=
  match q with
  | none => (none, none)
  | some q =>
    let r := queue_pop q
    (some r.1, r.2)

/-! ### Logical contents of the ring -/

/-- Reduce an index in `[0, 2*cap)` into `[0, cap)`. -/
def wrapIdx (cap x : Nat) : Nat :=
  if x < cap then x else x - cap

/-- Number of handles currently held by the ring. -/
def qsize (q : AudioQueue) : Nat :=
  if q.head ≤ q.tail then q.tail - q.head else q.tail + q.cap - q.head

/-- The handles held by the ring, oldest first. -/
def contents (q : AudioQueue) : List Nat :=
  (List.range (qsize q)).map (fun i => q.slots (wrapIdx q.cap (q.head + i)))

/-- Structural invariant of a live queue. -/
def QInv (q : AudioQueue) : Prop :=
  2 ≤ q.cap ∧ q.head < q.cap ∧ q.tail < q.cap

theorem create_QInv (capacity : Nat) (q : AudioQueue)
    (h : audyn_audio_queue_create capacity = some q) : QInv q := by
  unfold audyn_audio_queue_create at h
  split at h
  · exact absurd h (by simp)
  · cases h
    simp only [QInv]
    refine ⟨by omega, by omega, by omega⟩

theorem create_contents (capacity : Nat) (q : AudioQueue)
    (h : audyn_audio_queue_create capacity = some q) : contents q = [] := by
  unfold audyn_audio_queue_create at h
  split at h
  · exact absurd h (by simp)
  · cases h
    simp [contents, qsize]

theorem next_idx_eq_wrap (cur cap : Nat) (h : cur < cap) :
    next_idx cur cap = wrapIdx cap (cur + 1) := by
  unfold next_idx wrapIdx
  split <;> split <;> omega

theorem next_idx_lt (cur cap : Nat) (h : cur < cap) (h2 : 0 < cap) :
    next_idx cur cap < cap := by
  unfold next_idx
  split <;> omega

theorem qsize_lt (q : AudioQueue) (h : QInv q) : qsize q < q.cap := by
  obtain ⟨hc, hh, ht⟩ := h
  unfold qsize
  split <;> omega

/-- The push-rejection test `next_idx tail == head` fires exactly when the
ring holds `cap - 1` handles. -/
theorem full_test_iff (q : AudioQueue) (h : QInv q) :
    (next_idx q.tail q.cap = q.head) ↔ qsize q = q.cap - 1 := by
  obtain ⟨hc, hh, ht⟩ := h
  unfold next_idx qsize
  split <;> split <;> omega

/-- The pop-emptiness test `head == tail` fires exactly when the ring
holds no handles. -/
theorem empty_test_iff (q : AudioQueue) (h : QInv q) :
    (q.head = q.tail) ↔ qsize q = 0 := by
  obtain ⟨hc, hh, ht⟩ := h
  unfold qsize
  split <;> omega

theorem wrap_tail (q : AudioQueue) (h : QInv q) :
    wrapIdx q.cap (q.head + qsize q) = q.tail := by
  obtain ⟨hc, hh, ht⟩ := h
  unfold qsize wrapIdx
  split <;> split <;> omega

theorem wrapIdx_inj (cap head i j : Nat) (_hh : head < cap) (hi : i < cap)
    (hj : j < cap) (h : wrapIdx cap (head + i) = wrapIdx cap (head + j)) :
    i = j := by
  unfold wrapIdx at h
  split at h <;> split at h <;> omega

theorem wrap_shift (cap head i : Nat) (_hh : head < cap) (hi : i + 1 < cap) :
    wrapIdx cap (wrapIdx cap (head + 1) + i) = wrapIdx cap (head + (i + 1)) := by
  unfold wrapIdx
  split <;> split <;> split <;> omega

/-- Accepted push appends the handle at the logical end of the ring. -/
theorem push_accepted_spec (q : AudioQueue) (p : Nat) (hInv : QInv q)
    (hnf : next_idx q.tail q.cap ≠ q.head) :
    (queue_push q p).2 = 1 ∧ QInv (queue_push q p).1 ∧
      contents (queue_push q p).1 = contents q ++ [p] := by
  obtain ⟨hc, hh, ht⟩ := hInv
  have hq : queue_push q p =
      ({ q with slots := fun j => if j = q.tail then p else q.slots j
              , tail := next_idx q.tail q.cap }, 1) := by
    unfold queue_push
    rw [if_neg hnf]
  rw [hq]
  refine ⟨rfl, ⟨hc, hh, next_idx_lt _ _ ht (by omega)⟩, ?_⟩
  have hsz : qsize { q with
      slots := fun j => if j = q.tail then p else q.slots j
      , tail := next_idx q.tail q.cap } = qsize q + 1 := by
    simp only [qsize, next_idx]
    unfold next_idx at hnf
    by_cases h2 : q.tail + 1 = q.cap
    · rw [if_pos h2] at hnf ⊢
      split_ifs <;> omega
    · rw [if_neg h2] at hnf ⊢
      split_ifs <;> omega
  unfold contents
  rw [hsz]
  simp only
  rw [List.range_succ, List.map_append, List.map_singleton]
  congr 1
  · apply List.map_congr_left
    intro i hi
    rw [List.mem_range] at hi
    have hiq : i < qsize q := hi
    have hne : wrapIdx q.cap (q.head + i) ≠ q.tail := by
      intro hEq
      have htail := wrap_tail q ⟨hc, hh, ht⟩
      have := wrapIdx_inj q.cap q.head i (qsize q) hh
        (by have := qsize_lt q ⟨hc, hh, ht⟩; omega)
        (qsize_lt q ⟨hc, hh, ht⟩) (hEq.trans htail.symm)
      omega
    simp [hne]
  · have htail := wrap_tail q ⟨hc, hh, ht⟩
    rw [htail]
    simp

/-- Successful pop removes the handle at the logical front of the ring. -/
theorem pop_spec (q : AudioQueue) (hInv : QInv q)
    (hne : q.head ≠ q.tail) :
    (queue_pop q).2 = some (q.slots q.head) ∧ QInv (queue_pop q).1 ∧
      contents q = q.slots q.head :: contents (queue_pop q).1 := by
  obtain ⟨hc, hh, ht⟩ := hInv
  have hq : queue_pop q =
      ({ q with head := next_idx q.head q.cap }, some (q.slots q.head)) := by
    unfold queue_pop
    rw [if_neg hne]
  rw [hq]
  refine ⟨rfl, ⟨hc, next_idx_lt _ _ hh (by omega), ht⟩, ?_⟩
  have hs0 : 0 < qsize q := by
    unfold qsize
    split <;> omega
  have hsz : qsize { q with head := next_idx q.head q.cap } = qsize q - 1 := by
    simp only [qsize, next_idx]
    by_cases h2 : q.head + 1 = q.cap
    · rw [if_pos h2]
      split_ifs <;> omega
    · rw [if_neg h2]
      split_ifs <;> omega
  unfold contents
  rw [hsz]
  simp only
  have hqs : qsize q = (qsize q - 1) + 1 := by omega
  rw [hqs, List.range_succ_eq_map]
  simp only [List.map_cons, List.map_map]
  have h0 : wrapIdx q.cap (q.head + 0) = q.head := by
    unfold wrapIdx
    split <;> omega
  rw [h0]
  congr 1
  apply List.map_congr_left
  intro i hi
  rw [List.mem_range] at hi
  have hlt : i + 1 < q.cap := by
    have := qsize_lt q ⟨hc, hh, ht⟩
    omega
  simp only [Function.comp]
  rw [next_idx_eq_wrap _ _ hh, wrap_shift q.cap q.head i hh hlt]

/-! ### Interleaved push/pop runs -/

/-- One producer/consumer call against the queue. -/
inductive QOp where
  | push (p : Nat)
  | pop

/-- Run a sequence of calls; returns the final queue, the handles of the
accepted pushes in order, and the handles returned by successful pops in
order. -/
def runQueue : AudioQueue → List QOp → AudioQueue × List Nat × List Nat
  | q, [] => (q, [], [])
  | q, QOp.push p :: ops =>
    let r := audyn_audio_queue_push (some q) p
    match r.1 with
    | none => (q, [], [])
    | some q1 =>
      let rest := runQueue q1 ops
      (rest.1, (if r.2 = 1 then [p] else []) ++ rest.2.1, rest.2.2)
  | q, QOp.pop :: ops =>
    let r := audyn_audio_queue_pop (some q)
    match r.1 with
    | none => (q, [], [])
    | some q1 =>
      let rest := runQueue q1 ops
      (rest.1, rest.2.1,
        (match r.2 with | some v => [v] | none => []) ++ rest.2.2)

theorem runQueue_spec (ops : List QOp) (q : AudioQueue) (hInv : QInv q) :
    QInv (runQueue q ops).1 ∧
      (runQueue q ops).2.2 ++ contents (runQueue q ops).1 =
        contents q ++ (runQueue q ops).2.1 := by
  induction ops generalizing q with
  | nil => simpa [runQueue] using hInv
  | cons op ops ih =>
    cases op with
    | push p =>
      by_cases hp : p = 0
      · subst hp
        simp only [runQueue, audyn_audio_queue_push, if_pos rfl]
        have := ih q hInv
        simpa using this
      · simp only [runQueue, audyn_audio_queue_push, if_neg hp]
        by_cases hful : next_idx q.tail q.cap = q.head
        · have hq : queue_push q p = (q, 0) := by
            unfold queue_push
            rw [if_pos hful]
          simp only [hq]
          have := ih q hInv
          simpa using this
        · obtain ⟨hr, hInv1, hcont⟩ := push_accepted_spec q p hInv hful
          simp only [hr]
          have := ih (queue_push q p).1 hInv1
          refine ⟨this.1, ?_⟩
          rw [this.2, hcont]
          simp
    | pop =>
      by_cases hemp : q.head = q.tail
      · have hq : queue_pop q = (q, none) := by
          unfold queue_pop
          rw [if_pos hemp]
        simp only [runQueue, audyn_audio_queue_pop, hq]
        have := ih q hInv
        simpa using this
      · obtain ⟨hr, hInv1, hcont⟩ := pop_spec q hInv hemp
        simp only [runQueue, audyn_audio_queue_pop, hr]
        have := ih (queue_pop q).1 hInv1
        refine ⟨this.1, ?_⟩
        rw [List.append_assoc, this.2, hcont]
        simp

/-- Concrete queue used as C1 witness input (a freshly created queue of
capacity 3, hence usable capacity 2). -/
def qW : AudioQueue :=
  { cap := 3, slots := fun _ => 0, head := 0, tail := 0 }

/-- Concrete operation sequence used as C1 witness input.  The push of 11
meets a full ring (7 and 9 are in flight) and is rejected. -/
def opsW : List QOp :=
  [QOp.push 5, QOp.push 7, QOp.pop, QOp.push 9, QOp.push 11,
   QOp.pop, QOp.pop]

/-- **C1**: over any interleaved sequence of push and pop calls, the
handles returned by successful pops, followed by the handles still in the
ring, are exactly the handles of the accepted pushes, in order (FIFO, no
reordering, duplication or loss); moreover at every live queue state a
non-null push is rejected exactly when the ring holds `cap - 1` handles
(usable capacity is `cap - 1`), and pop returns none exactly when the
ring is empty. -/
theorem spsc_queue_fifo (capacity : Nat) (q0 : AudioQueue) (ops : List QOp)
    (hq0 : audyn_audio_queue_create capacity = some q0) :
    (runQueue q0 ops).2.2 ++ contents (runQueue q0 ops).1 =
        (runQueue q0 ops).2.1 ∧
    (∀ q p, QInv q → p ≠ 0 →
      ((audyn_audio_queue_push (some q) p).2 = 0 ↔ qsize q = q.cap - 1)) ∧
    (∀ q, QInv q →
      ((audyn_audio_queue_pop (some q)).2 = none ↔ qsize q = 0)) := by
  refine ⟨?_, ?_, ?_⟩
  · have h := runQueue_spec ops q0 (create_QInv capacity q0 hq0)
    rw [h.2, create_contents capacity q0 hq0]
    simp
  · intro q p hInv hp
    simp only [audyn_audio_queue_push, if_neg hp]
    rw [← full_test_iff q hInv]
    unfold queue_push
    constructor
    · intro h
      by_contra hful
      rw [if_neg hful] at h
      simp at h
    · intro h
      rw [if_pos h]
  · intro q hInv
    simp only [audyn_audio_queue_pop]
    rw [← empty_test_iff q hInv]
    unfold queue_pop
    constructor
    · intro h
      by_contra hemp
      rw [if_neg hemp] at h
      simp at h
    · intro h
      rw [if_pos h]

/-- C1 witness: the FIFO theorem applied to a concrete capacity-3 queue
and a concrete interleaving that includes a rejected push and an exact
drain. -/
theorem spsc_queue_fifo_witness :
    ((runQueue qW opsW).2.2 ++ contents (runQueue qW opsW).1 =
        (runQueue qW opsW).2.1 ∧
      (∀ q p, QInv q → p ≠ 0 →
        ((audyn_audio_queue_push (some q) p).2 = 0 ↔ qsize q = q.cap - 1)) ∧
      (∀ q, QInv q →
        ((audyn_audio_queue_pop (some q)).2 = none ↔ qsize q = 0))) ∧
    (runQueue qW opsW).2.1 = [5, 7, 9] ∧
    (runQueue qW opsW).2.2 = [5, 7, 9] :=
  ⟨spsc_queue_fifo 3 qW opsW rfl, rfl, rfl⟩

/-! ## frame_pool.c : fixed-size frame pool with free stack

`struct audyn_frame_pool` holds `capacity` stable frame objects, a free
stack of frame pointers and an atomic `top` counting the free frames.
We model frames by their index in `pool->frames[]`.  A frame pointer
argument (possibly NULL, possibly with a NULL `pool` back-reference) is
modelled as `Option FrameRef`. -/

structure FramePool where
  capacity : Nat
  free_stack : Nat → Nat
  top : Nat

/-- A frame pointer: `hasPool` is whether `frame->pool` is non-NULL
(when non-NULL it refers to the unique pool being modelled), `idx` is
the frame's index in the pool's frame array. -/
structure FrameRef where
  hasPool : Bool
  idx : Nat

/-- `audyn_frame_pool_create`: all frames initially free, stack slot `i`
holding frame `i`, `top = pool_size`.  Zero sizes are rejected. -/
def audyn_frame_pool_create (pool_size channels sample_frames : Nat) :
    Option FramePool :=
  if pool_size = 0 ∨ channels = 0 ∨ sample_frames = 0 then none
  else some { capacity := pool_size, free_stack := fun i => i, top := pool_size }

/-- Body of `audyn_frame_acquire` after the `!pool` guard: returns the
updated pool and the acquired frame (`none` for the NULL return). -/
def frame_acquire (p : FramePool) : FramePool × Option Nat :=
  if p.top = 0 then (p, none)
  else ({ p with top := p.top - 1 }, some (p.free_stack (p.top - 1)))

/-- `audyn_frame_acquire` including the `!pool` guard. -/
def audyn_frame_acquire (pool : Option FramePool) :
    Option FramePool × Option Nat :=
  match pool with
  | none => (none, none)
  | some p => (some (frame_acquire p).1, (frame_acquire p).2)

/-- `audyn_frame_release` including the `!frame` and `!frame->pool`
guards and the defensive `top >= capacity` check. -/
def audyn_frame_release (p : FramePool) (frame : Option FrameRef) :
    FramePool :=
  match frame with
  | none => p
  | some f =>
    if f.hasPool = false then p
    else if p.capacity ≤ p.top then p
    else { p with
      free_stack := fun j => if j = p.top then f.idx else p.free_stack j
      , top := p.top + 1 }

/-- The free frames, bottom of the stack first. -/
def freeList (p : FramePool) : List Nat :=
  (List.range p.top).map p.free_stack

/-- One client call against the pool. -/
inductive PoolOp where
  | acquire
  | release (idx : Nat)

/-- Run a sequence of pool calls, tracking the list of in-flight frames
(in acquisition order), the number of successful acquires, and the
number of releases.  A release op releases the frame with index `i`
through its back-reference. -/
def runPool : FramePool → List Nat → List PoolOp →
    FramePool × List Nat × Nat × Nat
  | p, fl, [] => (p, fl, 0, 0)
  | p, fl, PoolOp.acquire :: ops =>
    match (frame_acquire p).2 with
    | some f =>
      let rest := runPool (frame_acquire p).1 (fl ++ [f]) ops
      (rest.1, rest.2.1, rest.2.2.1 + 1, rest.2.2.2)
    | none => runPool (frame_acquire p).1 fl ops
  | p, fl, PoolOp.release i :: ops =>
    let rest := runPool
      (audyn_frame_release p (some { hasPool := true, idx := i }))
      (fl.erase i) ops
    (rest.1, rest.2.1, rest.2.2.1, rest.2.2.2 + 1)

/-- A trace is well-behaved when every release op returns a frame that is
currently in flight (the unique ownership discipline of the spec). -/
def ValidOps : FramePool → List Nat → List PoolOp → Prop
  | _, _, [] => True
  | p, fl, PoolOp.acquire :: ops =>
    match (frame_acquire p).2 with
    | some f => ValidOps (frame_acquire p).1 (fl ++ [f]) ops
    | none => ValidOps (frame_acquire p).1 fl ops
  | p, fl, PoolOp.release i :: ops =>
    i ∈ fl ∧
      ValidOps (audyn_frame_release p (some { hasPool := true, idx := i }))
        (fl.erase i) ops

/-- Pool/in-flight abstraction invariant: the free stack contents plus
the in-flight frames are a permutation of all pooled frames. -/
def PoolInv (N : Nat) (p : FramePool) (fl : List Nat) : Prop :=
  p.capacity = N ∧ (freeList p ++ fl).Perm (List.range N)

theorem acquire_step_inv (N : Nat) (p : FramePool) (fl : List Nat)
    (hInv : PoolInv N p fl) (htop : p.top ≠ 0) :
    PoolInv N { p with top := p.top - 1 }
      (fl ++ [p.free_stack (p.top - 1)]) := by
  obtain ⟨hcap, hperm⟩ := hInv
  refine ⟨hcap, ?_⟩
  have hfree : freeList p =
      freeList { p with top := p.top - 1 } ++ [p.free_stack (p.top - 1)] := by
    unfold freeList
    simp only
    have hsucc : p.top = (p.top - 1) + 1 := by omega
    rw [hsucc, List.range_succ, List.map_append]
    simp
  have h1 : (freeList { p with top := p.top - 1 } ++
        (fl ++ [p.free_stack (p.top - 1)])).Perm
      (freeList { p with top := p.top - 1 } ++
        ([p.free_stack (p.top - 1)] ++ fl)) :=
    List.Perm.append_left _ List.perm_append_comm
  have h2 : freeList { p with top := p.top - 1 } ++
      ([p.free_stack (p.top - 1)] ++ fl) = freeList p ++ fl := by
    rw [hfree, List.append_assoc]
  exact h1.trans (h2 ▸ hperm)

theorem release_step_inv (N : Nat) (p : FramePool) (fl : List Nat) (i : Nat)
    (hInv : PoolInv N p fl) (hi : i ∈ fl) :
    PoolInv N (audyn_frame_release p (some { hasPool := true, idx := i }))
      (fl.erase i) := by
  obtain ⟨hcap, hperm⟩ := hInv
  have hlen : p.top + fl.length = N := by
    have := hperm.length_eq
    simp [freeList] at this
    omega
  have hfl : 0 < fl.length := List.length_pos.mpr (by rintro rfl; simp at hi)
  have htop : ¬ p.capacity ≤ p.top := by omega
  have hrel : audyn_frame_release p (some { hasPool := true, idx := i }) =
      { p with
        free_stack := fun j => if j = p.top then i else p.free_stack j
        , top := p.top + 1 } := by
    simp [audyn_frame_release, htop]
  rw [hrel]
  refine ⟨hcap, ?_⟩
  have hfree : freeList { p with
      free_stack := fun j => if j = p.top then i else p.free_stack j
      , top := p.top + 1 } = freeList p ++ [i] := by
    unfold freeList
    simp only
    rw [List.range_succ, List.map_append]
    simp only [List.map_singleton, if_pos rfl]
    congr 1
    apply List.map_congr_left
    intro j hj
    rw [List.mem_range] at hj
    rw [if_neg (by omega)]
  rw [hfree]
  have h1 : (freeList p ++ ([i] ++ fl.erase i)).Perm (freeList p ++ fl) :=
    List.Perm.append_left _ (List.perm_cons_erase hi).symm
  have h2 : (freeList p ++ [i]) ++ fl.erase i =
      freeList p ++ ([i] ++ fl.erase i) := by rw [List.append_assoc]
  exact h2 ▸ (h1.trans hperm)

theorem runPool_spec (N : Nat) (ops : List PoolOp) (p : FramePool)
    (fl : List Nat) (hInv : PoolInv N p fl) (hvalid : ValidOps p fl ops) :
    PoolInv N (runPool p fl ops).1 (runPool p fl ops).2.1 ∧
      (runPool p fl ops).2.1.length + (runPool p fl ops).2.2.2 =
        fl.length + (runPool p fl ops).2.2.1 := by
  induction ops generalizing p fl with
  | nil => exact ⟨hInv, by simp [runPool]⟩
  | cons op ops ih =>
    cases op with
    | acquire =>
      by_cases htop : p.top = 0
      · have hacq : frame_acquire p = (p, none) := by
          simp [frame_acquire, htop]
        simp only [runPool, ValidOps, hacq] at hvalid ⊢
        exact ih p fl hInv hvalid
      · have hacq : frame_acquire p =
            ({ p with top := p.top - 1 },
              some (p.free_stack (p.top - 1))) := by
          simp [frame_acquire, htop]
        simp only [runPool, ValidOps, hacq] at hvalid ⊢
        have hInv1 := acquire_step_inv N p fl hInv htop
        have hrec := ih _ _ hInv1 hvalid
        refine ⟨hrec.1, ?_⟩
        have h2 := hrec.2
        simp only [List.length_append, List.length_singleton] at h2
        omega
    | release i =>
      simp only [runPool, ValidOps] at hvalid ⊢
      obtain ⟨hi, hvalid⟩ := hvalid
      have hInv1 := release_step_inv N p fl i hInv hi
      have hrec := ih _ _ hInv1 hvalid
      refine ⟨hrec.1, ?_⟩
      have h2 := hrec.2
      have hfl : 0 < fl.length := List.length_pos.mpr (by rintro rfl; simp at hi)
      have herase : (fl.erase i).length = fl.length - 1 :=
        List.length_erase_of_mem hi
      omega

/-- Concrete pool used as C2 witness input (capacity 2). -/
def pW : FramePool :=
  { capacity := 2, free_stack := fun i => i, top := 2 }

/-- Concrete trace used as C2 witness input: drain the pool, fail one
acquire on the empty pool, release one frame, re-acquire it. -/
def poolOpsW : List PoolOp :=
  [PoolOp.acquire, PoolOp.acquire, PoolOp.acquire,
   PoolOp.release 0, PoolOp.acquire]

/-- **C2**: for a pool created with capacity `N`, after any well-behaved
sequence of acquire/release calls: (in-flight) + top = N, and
(#successful acquires) = (#releases) + (#in-flight) with #in-flight ≤ N;
at any reachable state, acquire on an exhausted pool returns none and
changes nothing, otherwise it decrements `top` and returns a pooled frame
distinct from every in-flight frame, and release of an in-flight frame
increments `top`. -/
theorem frame_pool_inflight_invariant (N C S : Nat) (p0 : FramePool)
    (ops : List PoolOp)
    (hp0 : audyn_frame_pool_create N C S = some p0)
    (hvalid : ValidOps p0 [] ops) :
    ((runPool p0 [] ops).1.top + (runPool p0 [] ops).2.1.length = N ∧
      (runPool p0 [] ops).2.2.1 =
        (runPool p0 [] ops).2.2.2 + (runPool p0 [] ops).2.1.length ∧
      (runPool p0 [] ops).2.1.length ≤ N) ∧
    (∀ p fl, PoolInv N p fl → p.top = 0 → frame_acquire p = (p, none)) ∧
    (∀ p fl, PoolInv N p fl → p.top ≠ 0 →
      (frame_acquire p).1.top = p.top - 1 ∧
      ∃ f, (frame_acquire p).2 = some f ∧ f < N ∧ f ∉ fl) ∧
    (∀ p fl i, PoolInv N p fl → i ∈ fl →
      (audyn_frame_release p
        (some { hasPool := true, idx := i })).top = p.top + 1) := by
  have hInv0 : PoolInv N p0 [] := by
    unfold audyn_frame_pool_create at hp0
    split at hp0
    · exact absurd hp0 (by simp)
    · cases hp0
      refine ⟨rfl, ?_⟩
      simp [freeList]
  have hlen : ∀ p fl, PoolInv N p fl → p.top + fl.length = N := by
    intro p fl hInv
    have := hInv.2.length_eq
    simp [freeList] at this
    omega
  refine ⟨?_, ?_, ?_, ?_⟩
  · have hrun := runPool_spec N ops p0 [] hInv0 hvalid
    have h1 := hlen _ _ hrun.1
    have h2 := hrun.2
    simp at h2
    exact ⟨h1, by omega, by omega⟩
  · intro p fl _ htop
    simp [frame_acquire, htop]
  · intro p fl hInv htop
    have hacq : frame_acquire p =
        ({ p with top := p.top - 1 }, some (p.free_stack (p.top - 1))) := by
      simp [frame_acquire, htop]
    rw [hacq]
    refine ⟨rfl, p.free_stack (p.top - 1), rfl, ?_, ?_⟩
    · have hmem : p.free_stack (p.top - 1) ∈ freeList p ++ fl :=
        List.mem_append_left _
          (List.mem_map_of_mem _ (List.mem_range.mpr (by omega)))
      have := hInv.2.mem_iff.mp hmem
      exact List.mem_range.mp this
    · have hnd : (freeList p ++ fl).Nodup :=
        hInv.2.nodup_iff.mpr (List.nodup_range N)
      have hdisj := List.disjoint_of_nodup_append hnd
      exact fun hin => hdisj
        (List.mem_map_of_mem _ (List.mem_range.mpr (by omega))) hin
  · intro p fl i hInv hi
    have hfl : 0 < fl.length := List.length_pos.mpr (by rintro rfl; simp at hi)
    have := hlen _ _ hInv
    have htop : ¬ p.capacity ≤ p.top := by
      rw [hInv.1]
      omega
    simp [audyn_frame_release, htop]

/-- C2 witness: the invariant theorem applied to a concrete capacity-2
pool and a concrete well-behaved trace with a failed acquire, a release
and a re-acquire. -/
theorem frame_pool_inflight_invariant_witness :
    (((runPool pW [] poolOpsW).1.top + (runPool pW [] poolOpsW).2.1.length
        = 2 ∧
      (runPool pW [] poolOpsW).2.2.1 =
        (runPool pW [] poolOpsW).2.2.2 +
          (runPool pW [] poolOpsW).2.1.length ∧
      (runPool pW [] poolOpsW).2.1.length ≤ 2) ∧
    (∀ p fl, PoolInv 2 p fl → p.top = 0 → frame_acquire p = (p, none)) ∧
    (∀ p fl, PoolInv 2 p fl → p.top ≠ 0 →
      (frame_acquire p).1.top = p.top - 1 ∧
      ∃ f, (frame_acquire p).2 = some f ∧ f < 2 ∧ f ∉ fl) ∧
    (∀ p fl i, PoolInv 2 p fl → i ∈ fl →
      (audyn_frame_release p
        (some { hasPool := true, idx := i })).top = p.top + 1)) ∧
    (runPool pW [] poolOpsW).2.2.1 = 3 ∧
    (runPool pW [] poolOpsW).2.2.2 = 1 :=
  ⟨frame_pool_inflight_invariant 2 1 1 pW poolOpsW rfl
    ⟨by decide, trivial⟩, rfl, rfl⟩

/-! ## archive_policy.c : rotation scheduling

Only the rotation-scheduling state is embedded: the path layouts and the
calendar conversion used by `audyn_archive_policy_next_path` go through
libc (`mktime`/`timegm`/`strftime`) and the filesystem; the period
bounds that `next_path` stores therefore enter as parameters of
`archive_policy_store_period`. -/

structure ArchivePolicy where
  rotation_period_sec : Nat
  initialized : Bool
  current_period_ns : Nat
  next_boundary_ns : Nat
  rotations : Nat

/-- Scheduling state of a freshly created policy
(`audyn_archive_policy_create`): not initialized, zeroed period. -/
def archive_policy_create_state (period_sec : Nat) : ArchivePolicy :=
  { rotation_period_sec := period_sec, initialized := false
    , current_period_ns := 0, next_boundary_ns := 0, rotations := 0 }

/-- `audyn_archive_policy_should_rotate` (non-NULL policy). -/
def audyn_archive_policy_should_rotate (p : ArchivePolicy) (now_ns : Nat) :
    Bool :=
  if p.initialized = false then true
  else if p.rotation_period_sec = 0 then false
  else if p.next_boundary_ns ≤ now_ns then true
  else false

/-- The state update of a successful `audyn_archive_policy_next_path`:
store the period computed by `calculate_period_boundary` for `now_ns`
(`period_start`/`period_end` are its outputs; for period 0 the end is
the maximal u64). -/
def archive_policy_store_period (p : ArchivePolicy)
    (period_start period_end : Nat) : ArchivePolicy :=
  { p with current_period_ns := period_start
         , next_boundary_ns := period_end }

/-- `audyn_archive_policy_advance` (non-NULL policy). -/
def audyn_archive_policy_advance (p : ArchivePolicy) : ArchivePolicy :=
  { p with initialized := true, rotations := p.rotations + 1 }

/-- **C5**: `should_rotate(now_ns)` is true exactly when the policy is
not yet initialized or the period is non-zero and `now_ns` has reached
the next boundary.  With period 0 it is true exactly once: true on the
fresh policy, and false forever after the initial open is committed by
`advance`.  After a rotation commits a period ending at `B`, it stays
false for every instant before `B` (never true twice for the same period
without an intervening `advance`). -/
theorem should_rotate_spec :
    (∀ p now_ns, audyn_archive_policy_should_rotate p now_ns = true ↔
      (p.initialized = false ∨
        (p.rotation_period_sec ≠ 0 ∧ p.next_boundary_ns ≤ now_ns))) ∧
    (∀ now_ns, audyn_archive_policy_should_rotate
        (archive_policy_create_state 0) now_ns = true) ∧
    (∀ s B now_ns, audyn_archive_policy_should_rotate
        (audyn_archive_policy_advance
          (archive_policy_store_period (archive_policy_create_state 0) s B))
        now_ns = false) ∧
    (∀ p s B now_ns, now_ns < B →
      audyn_archive_policy_should_rotate
        (audyn_archive_policy_advance (archive_policy_store_period p s B))
        now_ns = false) := by
  refine ⟨?_, ?_, ?_, ?_⟩
  · intro p now_ns
    unfold audyn_archive_policy_should_rotate
    split_ifs <;> simp_all
  · intro now_ns
    rfl
  · intro s B now_ns
    rfl
  · intro p s B now_ns hlt
    simp only [audyn_archive_policy_should_rotate,
      audyn_archive_policy_advance, archive_policy_store_period]
    split_ifs <;> first | rfl | omega | simp_all

/-- C5 witness: the rotation-scheduling theorem applied at a concrete
boundary (B = 100, queried at 99, with period 3600). -/
theorem should_rotate_spec_witness :
    (99 : Nat) < 100 ∧
    audyn_archive_policy_should_rotate
      (audyn_archive_policy_advance
        (archive_policy_store_period (archive_policy_create_state 3600) 0 100))
      99 = false :=
  ⟨by decide, should_rotate_spec.2.2.2 (archive_policy_create_state 3600)
    0 100 99 (by decide)⟩

/-! ## wav_sink.c : PCM16 WAV writer

The data region of the output file is modelled as the list of PCM16
samples written (2 bytes each).  `f32_to_i16` performs float arithmetic
(clamp, scale by 32767, truncate); floating point is not modelled, so
the sample conversion enters as an abstract function `conv` — the claims
below concern byte accounting only, which is independent of the sample
values.  The stdio stream is modelled as a pure file (fwrite/fflush/
fseek succeed); `fp` is modelled by the flag `fp_open`. -/

structure WavStats where
  frames_written : Nat
  bytes_written : Nat
  size_limit_hit : Bool

structure WavSink where
  fp_open : Bool
  sample_rate : Nat
  channels : Nat
  bytes_written : Nat
  data : List Int
  enable_fsync : Bool
  riff_size : Nat
  data_size : Nat
  stats : WavStats

/-- The chunked conversion/write loop of `audyn_wav_sink_write`
(CHUNK = 4096 samples per fwrite). -/
def wavWriteLoop {α : Type} (conv : α → Int) : List α → List Int → List Int
  | [], data => data
  | x :: rest, data =>
    wavWriteLoop conv ((x :: rest).drop (min 4096 (x :: rest).length))
      (data ++ ((x :: rest).take (min 4096 (x :: rest).length)).map conv)
termination_by samples _ => samples.length
decreasing_by
  simp only [List.length_drop, List.length_cons]
  omega

theorem wavWriteLoop_eq_aux {α : Type} (conv : α → Int) (n : Nat) :
    ∀ (samples : List α) (data : List Int), samples.length ≤ n →
      wavWriteLoop conv samples data = data ++ samples.map conv := by
  induction n with
  | zero =>
    intro samples data h
    have hnil : samples = [] := List.eq_nil_of_length_eq_zero (by omega)
    subst hnil
    simp [wavWriteLoop]
  | succ n ih =>
    intro samples data h
    match samples with
    | [] => simp [wavWriteLoop]
    | x :: rest =>
      have hlen2 : ((x :: rest).drop (min 4096 (x :: rest).length)).length
          ≤ n := by
        simp only [List.length_drop, List.length_cons]
        simp only [List.length_cons] at h
        omega
      rw [wavWriteLoop, ih _ _ hlen2]
      rw [List.append_assoc, ← List.map_append, List.take_append_drop]

theorem wavWriteLoop_eq {α : Type} (conv : α → Int) (samples : List α)
    (data : List Int) :
    wavWriteLoop conv samples data = data ++ samples.map conv :=
  wavWriteLoop_eq_aux conv samples.length samples data le_rfl

/-- `audyn_wav_sink_write`: guards, the classic-WAV size-limit check,
then the chunked conversion loop.  `buf = none` models a NULL sample
pointer; the C `int` result is returned alongside the new state. -/
def audyn_wav_sink_write {α : Type} (s : WavSink) (buf : Option (List α))
    (frames channels : Nat) (conv : α → Int) : WavSink × Int :=
  if s.fp_open = false then (s, -1)
  else match buf with
  | none => (s, -1)
  | some samples =>
    if channels ≠ s.channels then (s, -1)
    else if frames = 0 then (s, 0)
    else if (2 ^ 64 - 1) / channels < frames then (s, -1)
    else
      let nsamples := frames * channels
      let add_bytes := nsamples * 2
      if 2 ^ 32 - 1 < s.bytes_written + add_bytes then
        ({ s with stats := { s.stats with size_limit_hit := true } }, -1)
      else
        ({ s with
            data := wavWriteLoop conv (samples.take nsamples) s.data
            , bytes_written := s.bytes_written + add_bytes
            , stats :=
              { frames_written := s.stats.frames_written + frames
                , bytes_written := s.bytes_written + add_bytes
                , size_limit_hit := s.stats.size_limit_hit } }, 0)

/-- `audyn_wav_sink_close`: fails on a NULL/closed stream, enforces the
size limit, then patches the RIFF size (offset 4) and data size
(offset 40) and closes the stream. -/
def audyn_wav_sink_close (s : WavSink) : WavSink × Int :=
  if s.fp_open = false then (s, -1)
  else if 2 ^ 32 - 1 < s.bytes_written then
    ({ s with fp_open := false }, -1)
  else
    ({ s with fp_open := false
            , riff_size := 4 + (8 + 16) + (8 + s.bytes_written)
            , data_size := s.bytes_written }, 0)

/-- **C6**: a WAV write of `f` frames with `c` channels fails with -1 and
writes nothing (data region and `bytes_written` unchanged) whenever the
cumulative data size would exceed `2^32 - 1` bytes; otherwise it returns
0, appends exactly `f*c` PCM16 samples (`f*c*2` bytes) to the data
region and increases `bytes_written` by exactly `f*c*2`. -/
theorem wav_write_size_limit {α : Type} (s : WavSink) (samples : List α)
    (frames : Nat) (conv : α → Int)
    (hopen : s.fp_open = true) (hch : s.channels ≠ 0)
    (hlen : samples.length = frames * s.channels) :
    (0 < frames →
      2 ^ 32 - 1 < s.bytes_written + frames * s.channels * 2 →
      (audyn_wav_sink_write s (some samples) frames s.channels conv).2 = -1 ∧
      (audyn_wav_sink_write s (some samples) frames s.channels
        conv).1.bytes_written = s.bytes_written ∧
      (audyn_wav_sink_write s (some samples) frames s.channels
        conv).1.data = s.data) ∧
    (s.bytes_written + frames * s.channels * 2 ≤ 2 ^ 32 - 1 →
      (audyn_wav_sink_write s (some samples) frames s.channels conv).2 = 0 ∧
      (audyn_wav_sink_write s (some samples) frames s.channels
        conv).1.data = s.data ++ samples.map conv ∧
      (audyn_wav_sink_write s (some samples) frames s.channels
        conv).1.data.length = s.data.length + frames * s.channels ∧
      (audyn_wav_sink_write s (some samples) frames s.channels
        conv).1.bytes_written =
          s.bytes_written + frames * s.channels * 2) := by
  constructor
  · intro hf hover
    unfold audyn_wav_sink_write
    rw [hopen]
    simp only [Bool.true_eq_false, if_false, if_neg (by simp : ¬(s.channels ≠ s.channels)),
      if_neg (by omega : ¬frames = 0)]
    by_cases hguard : (2 ^ 64 - 1) / s.channels < frames
    · rw [if_pos hguard]
      exact ⟨rfl, rfl, rfl⟩
    · rw [if_neg hguard, if_pos (by omega)]
      exact ⟨rfl, rfl, rfl⟩
  · intro hfit
    by_cases hf : frames = 0
    · subst hf
      have hnil : samples = [] :=
        List.eq_nil_of_length_eq_zero (by simpa using hlen)
      subst hnil
      simp [audyn_wav_sink_write, hopen]
    · have hbound : frames * s.channels ≤ 2 ^ 31 := by omega
      have hguard : ¬ (2 ^ 64 - 1) / s.channels < frames := by
        rw [not_lt, Nat.le_div_iff_mul_le (by omega)]
        have hle : frames ≤ frames * s.channels :=
          Nat.le_mul_of_pos_right frames (by omega)
        omega
      unfold audyn_wav_sink_write
      rw [hopen]
      simp only [Bool.true_eq_false, if_false,
        if_neg (by simp : ¬(s.channels ≠ s.channels)), if_neg hf,
        if_neg hguard, if_neg (by omega : ¬(2 ^ 32 - 1 <
          s.bytes_written + frames * s.channels * 2))]
      refine ⟨by trivial, ?_, ?_, by trivial⟩
      · rw [wavWriteLoop_eq, ← hlen, List.take_length]
      · rw [wavWriteLoop_eq, ← hlen, List.take_length]
        simp [hlen]

/-- Concrete open WAV sink used as C6/C7 witness input. -/
def wavW : WavSink :=
  { fp_open := true, sample_rate := 48000, channels := 2
    , bytes_written := 0, data := [], enable_fsync := false
    , riff_size := 0, data_size := 0
    , stats := { frames_written := 0, bytes_written := 0
                 , size_limit_hit := false } }

/-- C6 witness: the size-limit theorem applied to a concrete fresh
stereo sink and a concrete 2-frame write (both cases instantiated; the
overflow branch is vacuous here and the success branch evaluated). -/
theorem wav_write_size_limit_witness :
    ((0 < 2 → 2 ^ 32 - 1 < wavW.bytes_written + 2 * wavW.channels * 2 →
      (audyn_wav_sink_write wavW (some [7, -7, 100, -100]) 2 wavW.channels
        (fun x : Int => x)).2 = -1 ∧
      (audyn_wav_sink_write wavW (some [7, -7, 100, -100]) 2 wavW.channels
        (fun x : Int => x)).1.bytes_written = wavW.bytes_written ∧
      (audyn_wav_sink_write wavW (some [7, -7, 100, -100]) 2 wavW.channels
        (fun x : Int => x)).1.data = wavW.data) ∧
    (wavW.bytes_written + 2 * wavW.channels * 2 ≤ 2 ^ 32 - 1 →
      (audyn_wav_sink_write wavW (some [7, -7, 100, -100]) 2 wavW.channels
        (fun x : Int => x)).2 = 0 ∧
      (audyn_wav_sink_write wavW (some [7, -7, 100, -100]) 2 wavW.channels
        (fun x : Int => x)).1.data =
          wavW.data ++ [7, -7, 100, -100].map (fun x : Int => x) ∧
      (audyn_wav_sink_write wavW (some [7, -7, 100, -100]) 2 wavW.channels
        (fun x : Int => x)).1.data.length =
          wavW.data.length + 2 * wavW.channels ∧
      (audyn_wav_sink_write wavW (some [7, -7, 100, -100]) 2 wavW.channels
        (fun x : Int => x)).1.bytes_written =
          wavW.bytes_written + 2 * wavW.channels * 2)) ∧
    wavW.fp_open = true ∧ wavW.channels ≠ 0 :=
  ⟨wav_write_size_limit wavW [7, -7, 100, -100] 2 (fun x => x)
    rfl (by decide) (by decide), rfl, by decide⟩

/-! ## opus_sink.c : Ogg Opus writer (container framing)

The embedding covers the Ogg packet/granulepos accounting: the libopus
encoder and libogg paging are external libraries, so encoded payload
bytes are not modelled (`zero_len` records whether a packet is the
zero-length end-of-stream marker; header and encoded-audio packets carry
payload).  The input FIFO's sample values do not affect any claim, so
only its length in frames is tracked. -/

/-- `FIFO_MAX_FRAMES` = 48000 * 10 ("10 seconds at 48kHz"). -/
def FIFO_MAX_FRAMES : Nat := 48000 * 10

/-- `choose_frame_size`: always 20 ms frames. -/
def choose_frame_size (sample_rate : Nat) : Nat := sample_rate / 50

/-- `opus_frame_size_is_valid`. -/
def opus_frame_size_is_valid (sample_rate frame_size : Nat) : Bool :=
  frame_size = sample_rate / 400 ∨ frame_size = sample_rate / 200 ∨
  frame_size = sample_rate / 100 ∨ frame_size = sample_rate / 50 ∨
  frame_size = sample_rate / 25 ∨ frame_size = sample_rate * 3 / 50

/-- `frames_to_48k`: convert a frame count at `sample_rate` into 48 kHz
units (exact for the supported rates with 20 ms frames). -/
def frames_to_48k (frames sample_rate : Nat) : Int :=
  Int.ofNat (frames * 48000 / sample_rate)

structure OpusStats where
  frames_in : Nat
  frames_encoded : Nat
  packets_encoded : Nat
  fifo_overflows : Nat

/-- An emitted `ogg_packet`: begin/end-of-stream flags, granule
position, packet number, and whether the packet is zero-length
(`op.bytes == 0`, true only for the EOS marker packet). -/
structure OggPacket where
  bos : Bool
  eos : Bool
  granulepos : Int
  packetno : Int
  zero_len : Bool

structure OpusSink where
  sample_rate : Nat
  channels : Nat
  frame_size : Nat
  fifo_len_frames : Nat
  granulepos_48k : Int
  packetno : Int
  preskip_48k : Nat
  wrote_audio : Bool
  eos_written : Bool
  closed : Bool
  packets : List OggPacket
  stats : OpusStats

/-- `write_opus_headers`: emit OpusHead (BOS, granulepos 0) and OpusTags
packets with consecutive packet numbers, set pre-skip to 312 and
initialise the granulepos tracker to `-preskip`. -/
def write_opus_headers (s : OpusSink) : OpusSink :=
  let headPkt : OggPacket :=
    { bos := true, eos := false, granulepos := 0
      , packetno := s.packetno, zero_len := false }
  let s1 := { s with packets := s.packets ++ [headPkt]
                   , packetno := s.packetno + 1, preskip_48k := 312 }
  let tagsPkt : OggPacket :=
    { bos := false, eos := false, granulepos := 0
      , packetno := s1.packetno, zero_len := false }
  let s2 := { s1 with packets := s1.packets ++ [tagsPkt]
                    , packetno := s1.packetno + 1 }
  { s2 with granulepos_48k := -(Int.ofNat s2.preskip_48k) }

/-- `audyn_opus_sink_create` (container state): validates channels,
sample rate and frame size, then writes the headers.  File opening, the
encoder and the Ogg serial are external. -/
def audyn_opus_sink_create_state (sample_rate channels : Nat) :
    Option OpusSink :=
  if channels = 1 ∨ channels = 2 then
    if sample_rate = 8000 ∨ sample_rate = 12000 ∨ sample_rate = 16000 ∨
        sample_rate = 24000 ∨ sample_rate = 48000 then
      if opus_frame_size_is_valid sample_rate
          (choose_frame_size sample_rate) then
        some (write_opus_headers
          { sample_rate := sample_rate, channels := channels
            , frame_size := choose_frame_size sample_rate
            , fifo_len_frames := 0, granulepos_48k := 0, packetno := 0
            , preskip_48k := 0, wrote_audio := false, eos_written := false
            , closed := false, packets := []
            , stats := { frames_in := 0, frames_encoded := 0
                         , packets_encoded := 0, fifo_overflows := 0 } })
      else none
    else none
  else none

/-- One turn of the encode loop body in `audyn_opus_sink_write`: encode
a full frame, advance the granulepos (clamped at 0), emit an Ogg packet
with the next packet number, update statistics and consume the frame
from the FIFO. -/
def opus_encode_step (s : OpusSink) : OpusSink :=
  let g0 := s.granulepos_48k + frames_to_48k s.frame_size s.sample_rate
  let g := if g0 < 0 then 0 else g0
  { s with
      granulepos_48k := g
      , packets := s.packets ++
          [{ bos := false, eos := false, granulepos := g
             , packetno := s.packetno, zero_len := false }]
      , packetno := s.packetno + 1
      , wrote_audio := true
      , fifo_len_frames := s.fifo_len_frames - s.frame_size
      , stats := { s.stats with
          frames_encoded := s.stats.frames_encoded + s.frame_size
          , packets_encoded := s.stats.packets_encoded + 1 } }

/-- The `while (fifo_len_frames >= frame_size)` encode loop, written
with an explicit iteration bound (each turn consumes `frame_size ≥ 1`
frames, so `fifo_len_frames` turns always suffice).  The
`0 < frame_size` test is only for termination: `create` guarantees
`frame_size ≥ 160`. -/
def opus_encode_loop_fuel : Nat → OpusSink → OpusSink
  | 0, s => s
  | fuel + 1, s =>
    if 0 < s.frame_size ∧ s.frame_size ≤ s.fifo_len_frames then
      opus_encode_loop_fuel fuel (opus_encode_step s)
    else s

def opus_encode_loop (s : OpusSink) : OpusSink :=
  opus_encode_loop_fuel s.fifo_len_frames s

/-- `audyn_opus_sink_write` (with `buf_null` modelling a NULL sample
pointer): guards, the u32 length-overflow check, the 10-second FIFO cap,
then append to the FIFO and run the encode loop. -/
def audyn_opus_sink_write (s : OpusSink) (buf_null : Bool) (frames : Nat) :
    OpusSink × Int :=
  if s.closed then (s, -1)
  else if buf_null ∨ frames = 0 then (s, 0)
  else if 2 ^ 32 - 1 - s.fifo_len_frames < frames then (s, -1)
  else if FIFO_MAX_FRAMES < s.fifo_len_frames + frames then
    ({ s with stats :=
        { s.stats with fifo_overflows := s.stats.fifo_overflows + 1 } },
      -1)
  else
    (opus_encode_loop
      { s with fifo_len_frames := s.fifo_len_frames + frames
             , stats := { s.stats with
                 frames_in := s.stats.frames_in + frames } }, 0)

/-- `pad_and_encode_final`: when a partial frame remains, zero-pad it to
a full frame, encode it with the EOS bit set and consume it. -/
def pad_and_encode_final (s : OpusSink) : OpusSink :=
  if s.fifo_len_frames = 0 then s
  else
    let g0 := s.granulepos_48k + frames_to_48k s.frame_size s.sample_rate
    let g := if g0 < 0 then 0 else g0
    { s with
        granulepos_48k := g
        , packets := s.packets ++
            [{ bos := false, eos := true, granulepos := g
               , packetno := s.packetno, zero_len := false }]
        , packetno := s.packetno + 1
        , wrote_audio := true
        , eos_written := true
        , fifo_len_frames := 0 }

/-- `write_eos_marker`: emit a zero-length packet with the EOS flag and
the current granulepos (clamped at 0). -/
def write_eos_marker (s : OpusSink) : OpusSink :=
  if s.eos_written then s
  else
    { s with
        packets := s.packets ++
          [{ bos := false, eos := true
             , granulepos := if s.granulepos_48k < 0 then 0
                 else s.granulepos_48k
             , packetno := s.packetno, zero_len := true }]
        , packetno := s.packetno + 1
        , eos_written := true }

/-- `audyn_opus_sink_close`: idempotent via the `closed` flag; encodes
any final partial frame, emits the EOS marker when needed, and closes. -/
def audyn_opus_sink_close (s : OpusSink) : OpusSink × Int :=
  if s.closed then (s, 0)
  else
    let s1 := pad_and_encode_final s
    let s2 := if s1.wrote_audio = true ∧ s1.eos_written = false then
        write_eos_marker s1
      else s1
    ({ s2 with closed := true }, 0)

/-- The audio packets of the stream: everything after the two header
packets, except the zero-length EOS marker. -/
def audioPK (s : OpusSink) : List OggPacket :=
  (s.packets.drop 2).filter (fun pk => !pk.zero_len)

/-- Container invariant of an open Opus sink: headers written, packet
numbers are `0, 1, 2, ...` in order, every post-header packet is a
non-EOS encoded-audio packet, the granulepos tracker equals
(#audio packets)·fs48 − 312, and the k-th audio packet carries
granulepos `(k+1)·fs48 − 312`, where fs48 = frame_size·48000/Fs. -/
def OpusInv (s : OpusSink) : Prop :=
  s.preskip_48k = 312 ∧
  312 ≤ frames_to_48k s.frame_size s.sample_rate ∧
  0 < s.frame_size ∧
  s.closed = false ∧
  s.eos_written = false ∧
  s.packetno = (s.packets.length : Int) ∧
  2 ≤ s.packets.length ∧
  s.packets.map OggPacket.packetno =
    (List.range s.packets.length).map (fun n => (n : Int)) ∧
  (∀ pk ∈ s.packets.drop 2, pk.zero_len = false ∧ pk.eos = false) ∧
  s.granulepos_48k =
    ((s.packets.drop 2).length : Int) *
      frames_to_48k s.frame_size s.sample_rate - 312 ∧
  (∀ (k : Nat) (pk : OggPacket), (s.packets.drop 2)[k]? = some pk →
    pk.granulepos =
      ((k : Int) + 1) * frames_to_48k s.frame_size s.sample_rate - 312) ∧
  (s.wrote_audio = true ↔ 0 < (s.packets.drop 2).length)

theorem audioPK_of_inv (s : OpusSink)
    (hzero : ∀ pk ∈ s.packets.drop 2, pk.zero_len = false ∧ pk.eos = false) :
    audioPK s = s.packets.drop 2 := by
  unfold audioPK
  apply List.filter_eq_self.mpr
  intro pk hpk
  simp [(hzero pk hpk).1]

theorem opus_create_inv (sr ch : Nat) (s0 : OpusSink)
    (hc : audyn_opus_sink_create_state sr ch = some s0) :
    OpusInv s0 ∧ s0.granulepos_48k = -312 ∧ s0.preskip_48k = 312 ∧
      frames_to_48k s0.frame_size s0.sample_rate = 960 := by
  unfold audyn_opus_sink_create_state at hc
  split at hc
  case isFalse => exact absurd hc (by simp)
  rename_i hch
  split at hc
  case isFalse => exact absurd hc (by simp)
  rename_i hsr
  split at hc
  case isFalse => exact absurd hc (by simp)
  rename_i hfs
  cases hc
  rcases hch with rfl | rfl <;> rcases hsr with rfl | rfl | rfl | rfl | rfl <;>
    refine ⟨⟨rfl, by decide, by decide, rfl, rfl, by decide, by decide,
      by decide, by decide, by decide, ?_, by decide⟩,
      by decide, rfl, by decide⟩ <;>
    · intro k pk hpk
      simp [write_opus_headers] at hpk

/-- Run a sequence of writes (frame counts) against the sink. -/
def runOpusWrites (s : OpusSink) (ws : List Nat) : OpusSink :=
  ws.foldl (fun s f => (audyn_opus_sink_write s false f).1) s

theorem opus_encode_step_inv (s : OpusSink) (hInv : OpusInv s) :
    OpusInv (opus_encode_step s) := by
  obtain ⟨hp, hfs48, hfs, hcl, heos, hpn, hlen2, hmap, hzero, hgp,
    hformula, hwrote⟩ := hInv
  have hg0 : 0 ≤ s.granulepos_48k +
      frames_to_48k s.frame_size s.sample_rate := by
    rw [hgp]
    have h2 : (0:Int) ≤ Int.ofNat (s.packets.drop 2).length :=
      Int.ofNat_nonneg _
    nlinarith
  have hclamp : (if s.granulepos_48k +
      frames_to_48k s.frame_size s.sample_rate < 0 then 0
      else s.granulepos_48k + frames_to_48k s.frame_size s.sample_rate) =
      s.granulepos_48k + frames_to_48k s.frame_size s.sample_rate :=
    if_neg (not_lt.mpr hg0)
  unfold opus_encode_step
  simp only [hclamp]
  have hdrop : ∀ pkt : OggPacket,
      (s.packets ++ [pkt]).drop 2 = s.packets.drop 2 ++ [pkt] :=
    fun pkt => List.drop_append_of_le_length hlen2
  refine ⟨hp, hfs48, hfs, hcl, heos, ?_, ?_, ?_, ?_, ?_, ?_, ?_⟩
  · simp only [List.length_append, List.length_singleton, hpn]
    push_cast
    ring
  · simp only [List.length_append]
    omega
  · simp only [List.map_append, List.map_singleton, hmap, hpn,
      List.length_append, List.length_singleton, List.range_succ]
    simp
  · rw [hdrop]
    intro pk hpk
    rcases List.mem_append.mp hpk with hin | hin
    · exact hzero pk hin
    · rcases List.mem_singleton.mp hin with rfl
      exact ⟨rfl, rfl⟩
  · rw [hdrop, List.length_append, List.length_singleton, hgp]
    push_cast
    ring
  · rw [hdrop]
    intro k pk hpk
    rw [List.getElem?_append] at hpk
    by_cases hk : k < (s.packets.drop 2).length
    · rw [if_pos hk] at hpk
      exact hformula k pk hpk
    · rw [if_neg hk] at hpk
      have hk0 : k - (s.packets.drop 2).length = 0 := by
        by_contra hne
        rcases Nat.exists_eq_succ_of_ne_zero hne with ⟨m, hm⟩
        rw [hm] at hpk
        simp at hpk
      have hk2 : k = (s.packets.drop 2).length := by omega
      rw [hk0] at hpk
      simp only [List.getElem?_cons_zero, Option.some_inj] at hpk
      rw [← hpk, hk2, hgp]
      simp only
      ring
  · rw [hdrop]
    simp

theorem opus_encode_loop_fuel_inv (fuel : Nat) (s : OpusSink)
    (hInv : OpusInv s) : OpusInv (opus_encode_loop_fuel fuel s) := by
  induction fuel generalizing s with
  | zero => exact hInv
  | succ fuel ih =>
    unfold opus_encode_loop_fuel
    split
    · exact ih _ (opus_encode_step_inv s hInv)
    · exact hInv

theorem opus_write_inv (s : OpusSink) (bn : Bool) (f : Nat)
    (hInv : OpusInv s) : OpusInv (audyn_opus_sink_write s bn f).1 := by
  obtain ⟨hp, hfs48, hfs, hcl, heos, hpn, hlen2, hmap, hzero, hgp,
    hform, hwrote⟩ := hInv
  unfold audyn_opus_sink_write
  rw [if_neg (by simp [hcl])]
  split
  · exact ⟨hp, hfs48, hfs, hcl, heos, hpn, hlen2, hmap, hzero, hgp,
      hform, hwrote⟩
  · split
    · exact ⟨hp, hfs48, hfs, hcl, heos, hpn, hlen2, hmap, hzero, hgp,
        hform, hwrote⟩
    · split
      · exact ⟨hp, hfs48, hfs, hcl, heos, hpn, hlen2, hmap, hzero, hgp,
          hform, hwrote⟩
      · exact opus_encode_loop_fuel_inv _ _ ⟨hp, hfs48, hfs, hcl, heos,
          hpn, hlen2, hmap, hzero, hgp, hform, hwrote⟩

theorem runOpusWrites_inv (ws : List Nat) (s : OpusSink)
    (hInv : OpusInv s) : OpusInv (runOpusWrites s ws) := by
  induction ws generalizing s with
  | nil => exact hInv
  | cons f ws ih =>
    unfold runOpusWrites at ih ⊢
    simp only [List.foldl_cons]
    exact ih _ (opus_write_inv s false f hInv)

/-- Writes do not change the stream parameters. -/
theorem runOpusWrites_params (ws : List Nat) (s : OpusSink) :
    (runOpusWrites s ws).frame_size = s.frame_size ∧
    (runOpusWrites s ws).sample_rate = s.sample_rate ∧
    (runOpusWrites s ws).preskip_48k = s.preskip_48k := by
  have hstep : ∀ t : OpusSink, ∀ f : Nat,
      (audyn_opus_sink_write t false f).1.frame_size = t.frame_size ∧
      (audyn_opus_sink_write t false f).1.sample_rate = t.sample_rate ∧
      (audyn_opus_sink_write t false f).1.preskip_48k = t.preskip_48k := by
    intro t f
    have hloop : ∀ fuel : Nat, ∀ u : OpusSink,
        (opus_encode_loop_fuel fuel u).frame_size = u.frame_size ∧
        (opus_encode_loop_fuel fuel u).sample_rate = u.sample_rate ∧
        (opus_encode_loop_fuel fuel u).preskip_48k = u.preskip_48k := by
      intro fuel
      induction fuel with
      | zero => exact fun u => ⟨rfl, rfl, rfl⟩
      | succ fuel ih =>
        intro u
        unfold opus_encode_loop_fuel
        split
        · exact ih (opus_encode_step u)
        · exact ⟨rfl, rfl, rfl⟩
    unfold audyn_opus_sink_write
    split
    · exact ⟨rfl, rfl, rfl⟩
    · split
      · exact ⟨rfl, rfl, rfl⟩
      · split
        · exact ⟨rfl, rfl, rfl⟩
        · split
          · exact ⟨rfl, rfl, rfl⟩
          · exact hloop _ _
  induction ws generalizing s with
  | nil => exact ⟨rfl, rfl, rfl⟩
  | cons f ws ih =>
    unfold runOpusWrites at ih ⊢
    simp only [List.foldl_cons]
    obtain ⟨h1, h2, h3⟩ := ih (audyn_opus_sink_write s false f).1
    obtain ⟨g1, g2, g3⟩ := hstep s f
    exact ⟨h1.trans g1, h2.trans g2, h3.trans g3⟩

theorem map_packetno_ext (l : List OggPacket) (pkt : OggPacket)
    (hmap : l.map OggPacket.packetno =
      (List.range l.length).map (fun n => (n : Int)))
    (hpn : pkt.packetno = (l.length : Int)) :
    (l ++ [pkt]).map OggPacket.packetno =
      (List.range (l ++ [pkt]).length).map (fun n => (n : Int)) := by
  simp only [List.map_append, List.map_singleton, hmap, hpn,
    List.length_append, List.length_singleton, List.range_succ]
  simp

theorem granulepos_formula_ext (l : List OggPacket) (pkt : OggPacket)
    (F : Int)
    (hform : ∀ (k : Nat) (pk : OggPacket), l[k]? = some pk →
      pk.granulepos = ((k : Int) + 1) * F - 312)
    (hg : pkt.granulepos = ((l.length : Int) + 1) * F - 312) :
    ∀ (k : Nat) (pk : OggPacket), (l ++ [pkt])[k]? = some pk →
      pk.granulepos = ((k : Int) + 1) * F - 312 := by
  intro k pk hpk
  rw [List.getElem?_append] at hpk
  by_cases hk : k < l.length
  · rw [if_pos hk] at hpk
    exact hform k pk hpk
  · rw [if_neg hk] at hpk
    have hk0 : k - l.length = 0 := by
      by_contra hne
      rcases Nat.exists_eq_succ_of_ne_zero hne with ⟨m, hm⟩
      rw [hm] at hpk
      simp at hpk
    have hk2 : k = l.length := by omega
    rw [hk0] at hpk
    simp only [List.getElem?_cons_zero, Option.some_inj] at hpk
    rw [← hpk, hk2]
    exact hg

theorem opus_close_framing (s : OpusSink) (hInv : OpusInv s) :
    ((audyn_opus_sink_close s).1.packets.map OggPacket.packetno =
      (List.range (audyn_opus_sink_close s).1.packets.length).map
        (fun n => (n : Int))) ∧
    (∀ (k : Nat) (pk : OggPacket),
      (audioPK (audyn_opus_sink_close s).1)[k]? = some pk →
      pk.granulepos =
        ((k : Int) + 1) * frames_to_48k s.frame_size s.sample_rate - 312) ∧
    (0 < (audioPK (audyn_opus_sink_close s).1).length →
      ∃ pk, (audyn_opus_sink_close s).1.packets.getLast? = some pk ∧
        pk.eos = true) := by
  obtain ⟨hp, hfs48, hfs, hcl, heos, hpn, hlen2, hmap, hzero, hgp,
    hform, hwrote⟩ := hInv
  have hdrop : ∀ pkt : OggPacket,
      (s.packets ++ [pkt]).drop 2 = s.packets.drop 2 ++ [pkt] :=
    fun pkt => List.drop_append_of_le_length hlen2
  have hfilter : (s.packets.drop 2).filter (fun pk => !pk.zero_len) =
      s.packets.drop 2 :=
    List.filter_eq_self.mpr (fun pk hpk => by simp [(hzero pk hpk).1])
  unfold audyn_opus_sink_close
  rw [if_neg (by simp [hcl])]
  by_cases hfifo : s.fifo_len_frames = 0
  · have hpad : pad_and_encode_final s = s := by
      unfold pad_and_encode_final
      rw [if_pos hfifo]
    rw [hpad]
    dsimp only
    by_cases hwa : s.wrote_audio = true
    · rw [if_pos ⟨hwa, heos⟩]
      unfold write_eos_marker
      rw [if_neg (by simp [heos])]
      simp only
      refine ⟨?_, ?_, ?_⟩
      · exact map_packetno_ext s.packets _ hmap hpn
      · unfold audioPK
        simp only [hdrop, List.filter_append, hfilter]
        intro k pk hpk
        simp only [List.filter_cons, List.filter_nil] at hpk
        rw [if_neg (by decide : ¬((!true) = true)), List.append_nil] at hpk
        exact hform k pk hpk
      · intro hpos
        exact ⟨_, List.getLast?_concat _, rfl⟩
    · rw [if_neg (by simp [hwa])]
      refine ⟨hmap, ?_, ?_⟩
      · unfold audioPK
        simp only [hfilter]
        exact hform
      · intro hpos
        unfold audioPK at hpos
        simp only [hfilter] at hpos
        have hzero2 : (s.packets.drop 2).length = 0 := by
          by_contra hne
          exact hwa (hwrote.mpr (by omega))
        omega
  · have hg0 : 0 ≤ s.granulepos_48k +
        frames_to_48k s.frame_size s.sample_rate := by
      rw [hgp]
      have h2 : (0:Int) ≤ ((s.packets.drop 2).length : Int) :=
        Int.ofNat_nonneg _
      nlinarith
    have hpad : pad_and_encode_final s = { s with
        granulepos_48k := s.granulepos_48k +
          frames_to_48k s.frame_size s.sample_rate
        , packets := s.packets ++
            [{ bos := false, eos := true
               , granulepos := s.granulepos_48k +
                   frames_to_48k s.frame_size s.sample_rate
               , packetno := s.packetno, zero_len := false }]
        , packetno := s.packetno + 1
        , wrote_audio := true
        , eos_written := true
        , fifo_len_frames := 0 } := by
      unfold pad_and_encode_final
      rw [if_neg hfifo]
      simp only [if_neg (not_lt.mpr hg0)]
    rw [hpad]
    dsimp only
    rw [if_neg (by simp)]
    simp only
    refine ⟨?_, ?_, ?_⟩
    · exact map_packetno_ext s.packets _ hmap hpn
    · unfold audioPK
      simp only [hdrop, List.filter_append, hfilter]
      intro k pk hpk
      simp only [List.filter_cons, List.filter_nil] at hpk
      rw [if_pos (by decide : (!false) = true)] at hpk
      refine granulepos_formula_ext (s.packets.drop 2) _ _ hform ?_ k pk hpk
      simp only
      rw [hgp]
      ring
    · intro hpos
      exact ⟨_, List.getLast?_concat _, rfl⟩

/-- State of the sink after a write sequence and close. -/
def closeAfterWrites (s0 : OpusSink) (ws : List Nat) : OpusSink :=
  (audyn_opus_sink_close (runOpusWrites s0 ws)).1

/-- **C8**: for a sink created at a supported rate, the granulepos
tracker starts at `-preskip` with preskip = 312; after any sequence of
writes followed by close, packet numbers are `0, 1, 2, ...` (starting at
0 with the OpusHead packet, strictly increasing across all packets), the
k-th emitted audio packet (1-based k) carries granulepos
`k · frame_size · 48000/Fs − preskip`, and when any audio was written
the last packet of the stream carries the end-of-stream flag (libogg
puts the EOS packet on the final page). -/
theorem opus_stream_framing (sr ch : Nat) (s0 : OpusSink) (ws : List Nat)
    (hc : audyn_opus_sink_create_state sr ch = some s0) :
    s0.granulepos_48k = -(s0.preskip_48k : Int) ∧ s0.preskip_48k = 312 ∧
    ((closeAfterWrites s0 ws).packets.map OggPacket.packetno =
      (List.range (closeAfterWrites s0 ws).packets.length).map
        (fun n => (n : Int))) ∧
    (∀ (k : Nat) (pk : OggPacket),
      (audioPK (closeAfterWrites s0 ws))[k]? = some pk →
      pk.granulepos = ((k : Int) + 1) *
        frames_to_48k s0.frame_size s0.sample_rate -
        (s0.preskip_48k : Int)) ∧
    (0 < (audioPK (closeAfterWrites s0 ws)).length →
      ∃ pk, (closeAfterWrites s0 ws).packets.getLast? = some pk ∧
        pk.eos = true) := by
  obtain ⟨hInv0, hgp0, hps0, hfs960⟩ := opus_create_inv sr ch s0 hc
  have hInvF := runOpusWrites_inv ws s0 hInv0
  obtain ⟨hfsz, hsr2, hps2⟩ := runOpusWrites_params ws s0
  have hclose := opus_close_framing (runOpusWrites s0 ws) hInvF
  have hfr : frames_to_48k (runOpusWrites s0 ws).frame_size
      (runOpusWrites s0 ws).sample_rate =
      frames_to_48k s0.frame_size s0.sample_rate := by rw [hfsz, hsr2]
  refine ⟨by rw [hps0]; simpa using hgp0, hps0, hclose.1, ?_, hclose.2.2⟩
  intro k pk hpk
  have hx := hclose.2.1 k pk hpk
  rw [hfr] at hx
  rw [hps0]
  exact_mod_cast hx

/-- Concrete Opus sink state (48 kHz stereo, headers written) used as
C8 witness input. -/
def opusW : OpusSink :=
  write_opus_headers
    { sample_rate := 48000, channels := 2
      , frame_size := choose_frame_size 48000
      , fifo_len_frames := 0, granulepos_48k := 0, packetno := 0
      , preskip_48k := 0, wrote_audio := false, eos_written := false
      , closed := false, packets := []
      , stats := { frames_in := 0, frames_encoded := 0
                   , packets_encoded := 0, fifo_overflows := 0 } }

/-- C8 witness: the framing theorem applied to a concrete 48 kHz stereo
sink and one 960-frame write. -/
theorem opus_stream_framing_witness :
    opusW.granulepos_48k = -(opusW.preskip_48k : Int) ∧
    opusW.preskip_48k = 312 ∧
    ((closeAfterWrites opusW [960]).packets.map OggPacket.packetno =
      (List.range (closeAfterWrites opusW [960]).packets.length).map
        (fun n => (n : Int))) ∧
    (∀ (k : Nat) (pk : OggPacket),
      (audioPK (closeAfterWrites opusW [960]))[k]? = some pk →
      pk.granulepos = ((k : Int) + 1) *
        frames_to_48k opusW.frame_size opusW.sample_rate -
        (opusW.preskip_48k : Int)) ∧
    (0 < (audioPK (closeAfterWrites opusW [960])).length →
      ∃ pk, (closeAfterWrites opusW [960]).packets.getLast? = some pk ∧
        pk.eos = true) :=
  opus_stream_framing 48000 2 opusW [960] rfl

theorem opus_loop_fuel_overflows (fuel : Nat) (s : OpusSink) :
    (opus_encode_loop_fuel fuel s).stats.fifo_overflows =
      s.stats.fifo_overflows := by
  induction fuel generalizing s with
  | zero => rfl
  | succ fuel ih =>
    unfold opus_encode_loop_fuel
    split
    · exact ih (opus_encode_step s)
    · rfl

/-- Concrete Opus sink state at the configured rate 8000 Hz (headers
written) used for the C9 counterexample. -/
def opus8W : OpusSink :=
  write_opus_headers
    { sample_rate := 8000, channels := 1
      , frame_size := choose_frame_size 8000
      , fifo_len_frames := 0, granulepos_48k := 0, packetno := 0
      , preskip_48k := 0, wrote_audio := false, eos_written := false
      , closed := false, packets := []
      , stats := { frames_in := 0, frames_encoded := 0
                   , packets_encoded := 0, fifo_overflows := 0 } }

set_option maxRecDepth 100000 in
/-- C9 counterexample: at the configured sample rate 8000 Hz, a write of
81000 frames (10.125 seconds of audio, more than the claimed 10-second
cap at the configured rate) is accepted with result 0 and does not
increment `fifo_overflows`: the code's cap is the fixed
`FIFO_MAX_FRAMES` = 480000 frames, not 10 seconds at the configured
rate. -/
theorem opus_fifo_cap_counterexample :
    audyn_opus_sink_create_state 8000 1 = some opus8W ∧
    10 * opus8W.sample_rate < 81000 ∧
    (audyn_opus_sink_write opus8W false 81000).2 = 0 ∧
    (audyn_opus_sink_write opus8W false 81000).1.stats.fifo_overflows
      = 0 := by
  refine ⟨rfl, by decide, rfl, ?_⟩
  have h1 : (audyn_opus_sink_write opus8W false 81000).1 =
      opus_encode_loop { opus8W with
        fifo_len_frames := opus8W.fifo_len_frames + 81000
        , stats := { opus8W.stats with
            frames_in := opus8W.stats.frames_in + 81000 } } := rfl
  rw [h1]
  unfold opus_encode_loop
  rw [opus_loop_fuel_overflows]
  rfl

/-- **C9 (amended)**: the Opus sink's input FIFO is capped at
`FIFO_MAX_FRAMES` = 480000 frames — 10 seconds at 48 kHz, irrespective
of the configured sample rate: a write whose frames would make the FIFO
exceed 480000 frames fails with -1, increments the `fifo_overflows`
counter and appends nothing (FIFO length, emitted packets and the rest
of the state unchanged); a write within the cap is accepted (audio is
never silently dropped). -/
theorem opus_fifo_cap_spec (s : OpusSink) (f : Nat)
    (hcl : s.closed = false) (hf : f ≠ 0)
    (hlen : f ≤ 2 ^ 32 - 1 - s.fifo_len_frames) :
    (FIFO_MAX_FRAMES < s.fifo_len_frames + f →
      (audyn_opus_sink_write s false f).2 = -1 ∧
      (audyn_opus_sink_write s false f).1 =
        { s with stats := { s.stats with
            fifo_overflows := s.stats.fifo_overflows + 1 } }) ∧
    (s.fifo_len_frames + f ≤ FIFO_MAX_FRAMES →
      (audyn_opus_sink_write s false f).2 = 0) := by
  constructor
  · intro hover
    unfold audyn_opus_sink_write
    rw [if_neg (by simp [hcl]), if_neg (by simp [hf]),
      if_neg (by omega), if_pos hover]
    exact ⟨rfl, rfl⟩
  · intro hfit
    unfold audyn_opus_sink_write
    rw [if_neg (by simp [hcl]), if_neg (by simp [hf]),
      if_neg (by omega), if_neg (by omega)]

/-- C9 witness: the cap theorem applied to a concrete 48 kHz sink, a
rejected 480001-frame write (overflow branch) and the boundary (the
empty-FIFO sink accepts exactly 480000 frames). -/
theorem opus_fifo_cap_spec_witness :
    ((FIFO_MAX_FRAMES < opusW.fifo_len_frames + 480001 →
      (audyn_opus_sink_write opusW false 480001).2 = -1 ∧
      (audyn_opus_sink_write opusW false 480001).1 =
        { opusW with stats := { opusW.stats with
            fifo_overflows := opusW.stats.fifo_overflows + 1 } }) ∧
    (opusW.fifo_len_frames + 480001 ≤ FIFO_MAX_FRAMES →
      (audyn_opus_sink_write opusW false 480001).2 = 0)) ∧
    FIFO_MAX_FRAMES < opusW.fifo_len_frames + 480001 ∧
    (audyn_opus_sink_write opusW false 480001).2 = -1 := by
  have h := opus_fifo_cap_spec opusW 480001 rfl (by decide) (by decide)
  exact ⟨h, by decide, (h.1 (by decide)).1⟩

/-- C7 counterexample: a second close on the WAV sink returns -1, not
success: close on the concrete open sink `wavW` succeeds, and a second
close on the resulting closed sink returns -1. -/
theorem sink_close_second_wav_counterexample :
    (audyn_wav_sink_close wavW).2 = 0 ∧
    (audyn_wav_sink_close (audyn_wav_sink_close wavW).1).2 = -1 := by
  constructor <;> rfl

theorem opus_close_sets_closed (s : OpusSink) :
    (audyn_opus_sink_close s).1.closed = true := by
  unfold audyn_opus_sink_close
  split
  · assumption
  · rfl

/-- **C7 (amended)**: close is side-effect free when repeated on either
sink, but only the Opus sink reports success on the second call: Opus
close on a closed sink returns 0 and changes nothing (so a second close
after a successful close is a success no-op), while WAV close on a
closed sink (`fp == NULL`) changes nothing but returns -1. -/
theorem sink_close_idempotent (so : OpusSink) (sw : WavSink)
    (hso : so.closed = true) (hsw : sw.fp_open = false) :
    audyn_opus_sink_close so = (so, 0) ∧
    (audyn_opus_sink_close (audyn_opus_sink_close so).1 =
      ((audyn_opus_sink_close so).1, 0)) ∧
    audyn_wav_sink_close sw = (sw, -1) := by
  have hclosed_eq : ∀ t : OpusSink, t.closed = true →
      audyn_opus_sink_close t = (t, 0) := by
    intro t ht
    unfold audyn_opus_sink_close
    rw [if_pos ht]
  refine ⟨hclosed_eq so hso,
    hclosed_eq _ (opus_close_sets_closed so), ?_⟩
  unfold audyn_wav_sink_close
  rw [if_pos (by simp [hsw])]

/-! ## jitter_buffer.c : RTP jitter buffer (insert path)

Sequence numbers are u16; `seq_compare` is the modular signed-16-bit
difference `(int16_t)(a - b)`.  The packet slot table is a function from
slot index to slot.  The pthread mutex serialises insert/get; the
embedded functions are the bodies run under the lock.  u64 time values
wrap modulo 2^64 where the C arithmetic can wrap. -/

/-- `AUDYN_JB_MAX_PAYLOAD`. -/
def AUDYN_JB_MAX_PAYLOAD : Nat := 1152

/-- `SEQ_MAX_DELTA`. -/
def SEQ_MAX_DELTA : Int := 1000

/-- `seq_compare`: `(int16_t)(a - b)` for u16 `a`, `b` (valid for
`a, b < 65536`). -/
def seq_compare (a b : Nat) : Int :=
  let d := (a + 65536 - b) % 65536
  if d < 32768 then (d : Int) else (d : Int) - 65536

structure JBStats where
  packets_received : Nat
  packets_played : Nat
  packets_late : Nat
  packets_lost : Nat
  packets_reordered : Nat
  buffer_overflows : Nat
  current_depth : Int
  max_depth : Int

structure JBPacket where
  valid : Bool
  seq : Nat
  rtp_ts : Nat
  arrival_ptp_ns : Nat
  payload_len : Nat
  payload : List Nat

structure JitterBuffer where
  depth_ms : Nat
  buffer_size : Nat
  loss_threshold : Nat
  packets : Nat → JBPacket
  initialized : Bool
  next_seq : Nat
  highest_seq : Nat
  playout_time_ns : Nat
  packet_duration_ns : Nat
  stats : JBStats

/-- `jb_reset_unlocked`: clear all slots, drop the anchor, keep the
cumulative statistics (only `current_depth` is reset). -/
def jb_reset_unlocked (jb : JitterBuffer) : JitterBuffer :=
  { jb with
      packets := fun i => { jb.packets i with valid := false }
      , initialized := false
      , next_seq := 0
      , highest_seq := 0
      , playout_time_ns := 0
      , stats := { jb.stats with current_depth := 0 } }

/-- The buffer-overflow advance loop inside `audyn_jb_insert`: skip
`advance_count` sequence numbers, counting holes as lost. -/
def jb_advance_loop : Nat → JitterBuffer → JitterBuffer
  | 0, jb => jb
  | n + 1, jb =>
    let skip := jb.next_seq % jb.buffer_size
    let lost := if (jb.packets skip).valid = false ∨
        (jb.packets skip).seq ≠ jb.next_seq then
        jb.stats.packets_lost + 1
      else jb.stats.packets_lost
    jb_advance_loop n { jb with
      packets := fun i => if i = skip then
          { jb.packets i with valid := false }
        else jb.packets i
      , next_seq := (jb.next_seq + 1) % 65536
      , playout_time_ns :=
          (jb.playout_time_ns + jb.packet_duration_ns) % 2 ^ 64
      , stats := { jb.stats with packets_lost := lost } }

/-- `audyn_jb_insert` (body under the lock; `payload = none` models a
NULL payload pointer; the first component of the result is the new
buffer state, the second the C `int` result). -/
def audyn_jb_insert (jb : JitterBuffer) (seq rtp_ts arrival_ns : Nat)
    (payload : Option (List Nat)) (payload_len : Nat) :
    JitterBuffer × Int :=
  match payload with
  | none => (jb, -1)
  | some pl =>
    if AUDYN_JB_MAX_PAYLOAD < payload_len then (jb, -1)
    else
      let jb := { jb with stats := { jb.stats with
          packets_received := jb.stats.packets_received + 1 } }
      let jb := if jb.initialized = false then
          { jb with
              next_seq := seq
              , highest_seq := seq
              , playout_time_ns :=
                  (arrival_ns + jb.depth_ms * 1000000) % 2 ^ 64
              , initialized := true }
        else jb
      let delta_from_next := seq_compare seq jb.next_seq
      if delta_from_next < 0 ∧ -SEQ_MAX_DELTA < delta_from_next then
        ({ jb with stats := { jb.stats with
            packets_late := jb.stats.packets_late + 1 } }, -1)
      else
        let jb := if delta_from_next < 0 then
            let jb0 := jb_reset_unlocked jb
            { jb0 with
                next_seq := seq
                , highest_seq := seq
                , playout_time_ns :=
                    (arrival_ns + jb0.depth_ms * 1000000) % 2 ^ 64
                , initialized := true }
          else jb
        let delta_from_highest := seq_compare seq jb.highest_seq
        let jb := if delta_from_highest < 0 ∧
            -SEQ_MAX_DELTA < delta_from_highest then
            { jb with stats := { jb.stats with
                packets_reordered := jb.stats.packets_reordered + 1 } }
          else if 0 < delta_from_highest then
            { jb with highest_seq := seq }
          else jb
        let delta_ahead := seq_compare seq jb.next_seq
        let jb := if (jb.buffer_size : Int) ≤ delta_ahead then
            let advance_count :=
              (delta_ahead - (jb.buffer_size : Int) + 1).toNat
            let jb := jb_advance_loop advance_count jb
            { jb with stats := { jb.stats with
                buffer_overflows := jb.stats.buffer_overflows + 1 } }
          else jb
        let index := seq % jb.buffer_size
        let slot := jb.packets index
        if slot.valid = true ∧ slot.seq = seq then (jb, 0)
        else
          let jb := if slot.valid = true ∧ slot.seq ≠ seq then
              { jb with stats := { jb.stats with
                  packets_lost := jb.stats.packets_lost + 1 } }
            else jb
          let newSlot : JBPacket :=
            { valid := true, seq := seq, rtp_ts := rtp_ts
              , arrival_ptp_ns := arrival_ns
              , payload_len := payload_len
              , payload := pl.take payload_len }
          let jb := { jb with packets := fun i =>
              if i = index then newSlot else jb.packets i }
          let depth0 := seq_compare jb.highest_seq jb.next_seq + 1
          let depth := if depth0 < 0 then 0 else depth0
          let jb := { jb with stats := { jb.stats with
              current_depth := depth
              , max_depth := if jb.stats.max_depth < depth then depth
                  else jb.stats.max_depth } }
          (jb, 0)

theorem seq_compare_self (a : Nat) : seq_compare a a = 0 := by
  unfold seq_compare
  have h : a + 65536 - a = 65536 := by omega
  rw [h]
  norm_num

/-- **C3**: for an insert after initialization, with Dnext the signed
16-bit distance `seq − next_seq`: when `-1000 < Dnext < 0` the packet
is counted late and rejected with -1, the only state change being the
`packets_received` and `packets_late` counters; when `Dnext ≤ -1000`
the buffer is reset and re-anchored on this packet —
`next_seq = highest_seq = seq`,
`playout_time_ns = arrival_ns + depth_ms·10⁶` — the insert succeeds
(result 0) and the cumulative statistics (received incremented as for
every packet; played/late/lost/reordered/overflows) are preserved. -/
theorem jb_insert_late_and_restart (jb : JitterBuffer)
    (seq rtp_ts arrival_ns : Nat) (pl : List Nat) (payload_len : Nat)
    (hinit : jb.initialized = true)
    (hlen : payload_len ≤ AUDYN_JB_MAX_PAYLOAD)
    (hbs : 0 < jb.buffer_size)
    (hfit : arrival_ns + jb.depth_ms * 1000000 < 2 ^ 64) :
    (seq_compare seq jb.next_seq < 0 →
      -1000 < seq_compare seq jb.next_seq →
      audyn_jb_insert jb seq rtp_ts arrival_ns (some pl) payload_len =
        ({ jb with stats := { jb.stats with
            packets_received := jb.stats.packets_received + 1
            , packets_late := jb.stats.packets_late + 1 } }, -1)) ∧
    (seq_compare seq jb.next_seq ≤ -1000 →
      (audyn_jb_insert jb seq rtp_ts arrival_ns (some pl)
          payload_len).2 = 0 ∧
      (audyn_jb_insert jb seq rtp_ts arrival_ns (some pl)
          payload_len).1.next_seq = seq ∧
      (audyn_jb_insert jb seq rtp_ts arrival_ns (some pl)
          payload_len).1.highest_seq = seq ∧
      (audyn_jb_insert jb seq rtp_ts arrival_ns (some pl)
          payload_len).1.playout_time_ns =
            arrival_ns + jb.depth_ms * 1000000 ∧
      (audyn_jb_insert jb seq rtp_ts arrival_ns (some pl)
          payload_len).1.initialized = true ∧
      (audyn_jb_insert jb seq rtp_ts arrival_ns (some pl)
          payload_len).1.stats.packets_received =
            jb.stats.packets_received + 1 ∧
      (audyn_jb_insert jb seq rtp_ts arrival_ns (some pl)
          payload_len).1.stats.packets_late = jb.stats.packets_late ∧
      (audyn_jb_insert jb seq rtp_ts arrival_ns (some pl)
          payload_len).1.stats.packets_lost = jb.stats.packets_lost ∧
      (audyn_jb_insert jb seq rtp_ts arrival_ns (some pl)
          payload_len).1.stats.packets_played =
            jb.stats.packets_played ∧
      (audyn_jb_insert jb seq rtp_ts arrival_ns (some pl)
          payload_len).1.stats.packets_reordered =
            jb.stats.packets_reordered ∧
      (audyn_jb_insert jb seq rtp_ts arrival_ns (some pl)
          payload_len).1.stats.buffer_overflows =
            jb.stats.buffer_overflows) := by
  have hlen2 : ¬ AUDYN_JB_MAX_PAYLOAD < payload_len := not_lt.mpr hlen
  constructor
  · intro h1 h2
    have h2b : -SEQ_MAX_DELTA < seq_compare seq jb.next_seq := by
      simpa [SEQ_MAX_DELTA] using h2
    simp [audyn_jb_insert, hlen2, hinit, h1, h2b]
  · intro hB
    have h1 : seq_compare seq jb.next_seq < 0 := by
      have : (0:Int) < 1000 := by norm_num
      omega
    have h2neg : ¬ (-SEQ_MAX_DELTA < seq_compare seq jb.next_seq) := by
      simp only [SEQ_MAX_DELTA, not_lt]
      omega
    have hbs0 : ¬ (jb.buffer_size = 0) := by omega
    have hmod : (arrival_ns + jb.depth_ms * 1000000) % 2 ^ 64 =
        arrival_ns + jb.depth_ms * 1000000 := Nat.mod_eq_of_lt hfit
    simp [audyn_jb_insert, jb_reset_unlocked, hlen2, hinit, h2neg, h1,
      seq_compare_self, hbs0, hmod]
    omega

/-! ## ptp_clock.c : RTP timestamp to PTP nanosecond mapping

u32/u64 fields are Nat with explicit reductions mod 2^64 where the C
unsigned arithmetic can wrap; the u64→i64 cast is modelled by the usual
two's-complement reinterpretation.  i64 arithmetic itself (the
`sample_delta * 10^9` multiplication) is exact `Int` arithmetic: signed
overflow is undefined behaviour in C, so the model agrees with every
defined execution.  C i64 division truncates toward zero (`Int.tdiv`). -/

structure PtpClock where
  epoch_set : Bool
  epoch_rtp_ts : Nat
  epoch_ptp_ns : Nat
  epoch_sample_rate : Nat
  last_rtp_ts : Nat
  rtp_wraparound_count : Nat

/-- `audyn_ptp_set_rtp_epoch` (non-NULL clock). -/
def audyn_ptp_set_rtp_epoch (clk : PtpClock)
    (rtp_ts ptp_ns sample_rate : Nat) : PtpClock :=
  if sample_rate = 0 then clk
  else { clk with
      epoch_rtp_ts := rtp_ts
      , epoch_ptp_ns := ptp_ns
      , epoch_sample_rate := sample_rate
      , last_rtp_ts := rtp_ts
      , rtp_wraparound_count := 0
      , epoch_set := true }

/-- The wraparound detection step of `audyn_ptp_rtp_to_ns`: count a
wrap when the new u32 timestamp is more than 2^31 smaller than the last
one. -/
def ptp_wrap_detect (clk : PtpClock) (rtp_ts : Nat) : Nat :=
  if rtp_ts < clk.last_rtp_ts ∧ 2 ^ 31 < clk.last_rtp_ts - rtp_ts then
    (clk.rtp_wraparound_count + 1) % 2 ^ 64
  else clk.rtp_wraparound_count

/-- u64 value reinterpreted as i64 (two's complement). -/
def u64_as_i64 (d : Nat) : Int :=
  if d < 2 ^ 63 then (d : Int) else (d : Int) - 2 ^ 64

/-- `audyn_ptp_rtp_to_ns` (non-NULL clock): wraparound tracking,
extended 64-bit timestamp, sample delta from the epoch, conversion to
nanoseconds and application to the epoch PTP time. -/
def audyn_ptp_rtp_to_ns (clk : PtpClock) (rtp_ts sample_rate : Nat) :
    PtpClock × Nat :=
  if sample_rate = 0 then (clk, 0)
  else if clk.epoch_set = false then (clk, 0)
  else
    let wc := ptp_wrap_detect clk rtp_ts
    let clk := { clk with
        rtp_wraparound_count := wc, last_rtp_ts := rtp_ts }
    let extended_rtp := (rtp_ts + wc * 2 ^ 32) % 2 ^ 64
    let extended_epoch := clk.epoch_rtp_ts
    let sample_delta : Int :=
      if extended_epoch ≤ extended_rtp then
        u64_as_i64 (extended_rtp - extended_epoch)
      else
        -(u64_as_i64 (extended_epoch - extended_rtp))
    let ns_delta := Int.tdiv (sample_delta * 1000000000) (sample_rate : Int)
    if 0 ≤ ns_delta then
      (clk, (clk.epoch_ptp_ns + ns_delta.toNat) % 2 ^ 64)
    else
      if (clk.epoch_ptp_ns : Int) < -ns_delta then (clk, 0)
      else (clk, clk.epoch_ptp_ns - (-ns_delta).toNat)

/-- The state update of `audyn_ptp_rtp_to_ns` after a successful guard
check: record the new wrap count and the last timestamp, whatever the
value branch taken. -/
theorem rtp_to_ns_state (clk : PtpClock) (ts Fs : Nat)
    (hset : clk.epoch_set = true) (hfs : Fs ≠ 0) :
    (audyn_ptp_rtp_to_ns clk ts Fs).1 =
      { clk with rtp_wraparound_count := ptp_wrap_detect clk ts
               , last_rtp_ts := ts } := by
  unfold audyn_ptp_rtp_to_ns
  rw [if_neg (by simp [hfs]), if_neg (by simp [hset])]
  dsimp only
  split <;> split <;> first | rfl | (split <;> rfl)

/-- Value of one forward conversion: when the (not-wrapped-mod-2^64)
extended timestamp lies at or after the epoch and the i64 quantities
stay in range, the conversion returns
`epoch_ptp_ns + (ext − epoch_rtp_ts)·10⁹ / Fs` and the state records
the new wrap count and last timestamp. -/
theorem rtp_to_ns_forward (clk : PtpClock) (ts Fs W : Nat)
    (hset : clk.epoch_set = true) (hfs : Fs ≠ 0)
    (hW : ptp_wrap_detect clk ts = W)
    (hext : ts + W * 2 ^ 32 < 2 ^ 64)
    (hfwd : clk.epoch_rtp_ts ≤ ts + W * 2 ^ 32)
    (hdsmall : ts + W * 2 ^ 32 - clk.epoch_rtp_ts < 2 ^ 63)
    (_hmul : (ts + W * 2 ^ 32 - clk.epoch_rtp_ts) * 1000000000 < 2 ^ 63)
    (hsum : clk.epoch_ptp_ns +
      (ts + W * 2 ^ 32 - clk.epoch_rtp_ts) * 1000000000 / Fs < 2 ^ 64) :
    audyn_ptp_rtp_to_ns clk ts Fs =
      ({ clk with rtp_wraparound_count := W, last_rtp_ts := ts },
        clk.epoch_ptp_ns +
          (ts + W * 2 ^ 32 - clk.epoch_rtp_ts) * 1000000000 / Fs) := by
  have hmodext : (ts + W * 2 ^ 32) % 2 ^ 64 = ts + W * 2 ^ 32 :=
    Nat.mod_eq_of_lt hext
  have hdelta : Int.tdiv
      ((u64_as_i64 (ts + W * 2 ^ 32 - clk.epoch_rtp_ts)) * 1000000000)
      (Fs : Int) =
      (((ts + W * 2 ^ 32 - clk.epoch_rtp_ts) * 1000000000 / Fs : Nat)
        : Int) := by
    unfold u64_as_i64
    rw [if_pos hdsmall]
    have hcast : ((ts + W * 2 ^ 32 - clk.epoch_rtp_ts : Nat) : Int) *
        1000000000 =
        (((ts + W * 2 ^ 32 - clk.epoch_rtp_ts) * 1000000000 : Nat)
          : Int) := by push_cast; ring
    rw [hcast]
    exact (Int.ofNat_tdiv _ _).symm
  unfold audyn_ptp_rtp_to_ns
  rw [if_neg (by simp [hfs]), if_neg (by simp [hset])]
  simp only [hW, hmodext]
  rw [if_pos hfwd]
  rw [hdelta]
  rw [if_pos (by positivity)]
  simp only [Int.toNat_ofNat]
  rw [Nat.mod_eq_of_lt hsum]

/-- **C4**: after the epoch is set, (i) `set_rtp_epoch` anchors
`(rtp_ts, ptp_ns, Fs)` and zeroes the wrap count; (ii) each conversion
increments the wrap count exactly when the new u32 timestamp is more
than 2^31 smaller than the previously seen one, and records the new
last timestamp; (iii) a forward conversion returns
`ptp_ns_anchor + (extended_rtp − rtp_ts_anchor)·10⁹ / Fs` with
`extended_rtp = packet_ts + 2^32·wrap_count`; (iv) across consecutive
conversions of a forward-running stream — in particular across a u32
timestamp wrap — the converted ns value is non-decreasing. -/
theorem ptp_rtp_extension_monotone :
    (∀ clk ts pns Fs, Fs ≠ 0 →
      audyn_ptp_set_rtp_epoch clk ts pns Fs =
        { clk with epoch_rtp_ts := ts, epoch_ptp_ns := pns
                 , epoch_sample_rate := Fs, last_rtp_ts := ts
                 , rtp_wraparound_count := 0, epoch_set := true }) ∧
    (∀ clk ts Fs, clk.epoch_set = true → Fs ≠ 0 →
      clk.rtp_wraparound_count + 1 < 2 ^ 64 →
      (audyn_ptp_rtp_to_ns clk ts Fs).1.rtp_wraparound_count =
        clk.rtp_wraparound_count +
          (if ts < clk.last_rtp_ts ∧
              2 ^ 31 < clk.last_rtp_ts - ts then 1 else 0) ∧
      (audyn_ptp_rtp_to_ns clk ts Fs).1.last_rtp_ts = ts) ∧
    (∀ clk ts Fs W, clk.epoch_set = true → Fs ≠ 0 →
      ptp_wrap_detect clk ts = W →
      ts + W * 2 ^ 32 < 2 ^ 64 →
      clk.epoch_rtp_ts ≤ ts + W * 2 ^ 32 →
      ts + W * 2 ^ 32 - clk.epoch_rtp_ts < 2 ^ 63 →
      (ts + W * 2 ^ 32 - clk.epoch_rtp_ts) * 1000000000 < 2 ^ 63 →
      clk.epoch_ptp_ns + (ts + W * 2 ^ 32 - clk.epoch_rtp_ts) *
        1000000000 / Fs < 2 ^ 64 →
      (audyn_ptp_rtp_to_ns clk ts Fs).2 =
        clk.epoch_ptp_ns +
          (ts + W * 2 ^ 32 - clk.epoch_rtp_ts) * 1000000000 / Fs) ∧
    (∀ clk ts1 ts2 Fs W1 W2, clk.epoch_set = true → Fs ≠ 0 →
      ts1 < 2 ^ 32 → ts2 < 2 ^ 32 →
      ptp_wrap_detect clk ts1 = W1 →
      (ts1 ≤ ts2 ∨ (ts2 < ts1 ∧ 2 ^ 31 < ts1 - ts2)) →
      W2 = (if ts2 < ts1 ∧ 2 ^ 31 < ts1 - ts2 then W1 + 1 else W1) →
      W1 + 1 < 2 ^ 64 →
      ts1 + W1 * 2 ^ 32 < 2 ^ 64 →
      ts2 + W2 * 2 ^ 32 < 2 ^ 64 →
      clk.epoch_rtp_ts ≤ ts1 + W1 * 2 ^ 32 →
      ts2 + W2 * 2 ^ 32 - clk.epoch_rtp_ts < 2 ^ 63 →
      (ts2 + W2 * 2 ^ 32 - clk.epoch_rtp_ts) * 1000000000 < 2 ^ 63 →
      clk.epoch_ptp_ns + (ts2 + W2 * 2 ^ 32 - clk.epoch_rtp_ts) *
        1000000000 / Fs < 2 ^ 64 →
      (audyn_ptp_rtp_to_ns clk ts1 Fs).2 ≤
        (audyn_ptp_rtp_to_ns
          (audyn_ptp_rtp_to_ns clk ts1 Fs).1 ts2 Fs).2) := by
  refine ⟨?_, ?_, ?_, ?_⟩
  · intro clk ts pns Fs hfs
    unfold audyn_ptp_set_rtp_epoch
    rw [if_neg hfs]
  · intro clk ts Fs hset hfs hnowrap
    rw [rtp_to_ns_state clk ts Fs hset hfs]
    constructor
    · show ptp_wrap_detect clk ts = _
      unfold ptp_wrap_detect
      split
      · exact Nat.mod_eq_of_lt hnowrap
      · omega
    · rfl
  · intro clk ts Fs W hset hfs hW hext hfwd hdsmall hmul hsum
    rw [rtp_to_ns_forward clk ts Fs W hset hfs hW hext hfwd hdsmall
      hmul hsum]
  · intro clk ts1 ts2 Fs W1 W2 hset hfs hts1 hts2 hW1 hdir hW2 hnw
      hext1 hext2 hfwd1 hdsmall2 hmul2 hsum2
    have hext1b : ts1 + W1 * 2 ^ 32 ≤ ts2 + W2 * 2 ^ 32 := by
      rcases hdir with hle | ⟨hlt, hbig⟩
      · have : ¬ (ts2 < ts1 ∧ 2 ^ 31 < ts1 - ts2) := by
          intro hcon
          omega
        rw [hW2, if_neg this]
        omega
      · rw [hW2, if_pos ⟨hlt, hbig⟩]
        have : ts1 ≤ ts2 + 2 ^ 32 := by omega
        nlinarith
    have hdsmall1 : ts1 + W1 * 2 ^ 32 - clk.epoch_rtp_ts < 2 ^ 63 := by
      omega
    have hmul1 : (ts1 + W1 * 2 ^ 32 - clk.epoch_rtp_ts) * 1000000000 <
        2 ^ 63 := by
      have hle : (ts1 + W1 * 2 ^ 32 - clk.epoch_rtp_ts) * 1000000000 ≤
          (ts2 + W2 * 2 ^ 32 - clk.epoch_rtp_ts) * 1000000000 :=
        Nat.mul_le_mul_right _ (by omega)
      omega
    have hsum1 : clk.epoch_ptp_ns + (ts1 + W1 * 2 ^ 32 -
        clk.epoch_rtp_ts) * 1000000000 / Fs < 2 ^ 64 := by
      have hle : (ts1 + W1 * 2 ^ 32 - clk.epoch_rtp_ts) * 1000000000 /
          Fs ≤ (ts2 + W2 * 2 ^ 32 - clk.epoch_rtp_ts) * 1000000000 /
          Fs :=
        Nat.div_le_div_right (Nat.mul_le_mul_right _ (by omega))
      omega
    have h1 := rtp_to_ns_forward clk ts1 Fs W1 hset hfs hW1
      (by omega) hfwd1 hdsmall1 hmul1 hsum1
    have hW2b : ptp_wrap_detect (audyn_ptp_rtp_to_ns clk ts1 Fs).1
        ts2 = W2 := by
      rw [h1]
      unfold ptp_wrap_detect
      simp only
      rw [hW2]
      split
      · rw [Nat.mod_eq_of_lt (by omega)]
      · rfl
    have hset2 : (audyn_ptp_rtp_to_ns clk ts1 Fs).1.epoch_set = true := by
      rw [h1]
      exact hset
    have hepoch2 : (audyn_ptp_rtp_to_ns clk ts1 Fs).1.epoch_rtp_ts =
        clk.epoch_rtp_ts := by rw [h1]
    have hptp2 : (audyn_ptp_rtp_to_ns clk ts1 Fs).1.epoch_ptp_ns =
        clk.epoch_ptp_ns := by rw [h1]
    have h2 := rtp_to_ns_forward (audyn_ptp_rtp_to_ns clk ts1 Fs).1
      ts2 Fs W2 hset2 hfs hW2b (by omega)
      (by rw [hepoch2]; omega)
      (by rw [hepoch2]; omega)
      (by rw [hepoch2]; exact hmul2)
      (by rw [hepoch2, hptp2]; exact hsum2)
    rw [h2, h1]
    dsimp only
    apply Nat.add_le_add_left
    exact Nat.div_le_div_right (Nat.mul_le_mul_right _ (by omega))

/-- Concrete PTP clock anchored 1000 RTP ticks before the u32 wrap
(epoch at 2^32 − 1000, anchor 10⁹ ns, 48 kHz), used as C4 witness. -/
def clkP : PtpClock :=
  audyn_ptp_set_rtp_epoch
    { epoch_set := false, epoch_rtp_ts := 0, epoch_ptp_ns := 0
      , epoch_sample_rate := 0, last_rtp_ts := 0
      , rtp_wraparound_count := 0 }
    (2 ^ 32 - 1000) 1000000000 48000

/-- C4 witness: the monotonicity conjunct applied across a concrete
u32 timestamp wrap (2^32 − 100 followed by 50, which bumps the wrap
count to 1): the converted ns value does not decrease. -/
theorem ptp_rtp_extension_monotone_witness :
    (audyn_ptp_rtp_to_ns clkP 4294967196 48000).2 ≤
      (audyn_ptp_rtp_to_ns
        (audyn_ptp_rtp_to_ns clkP 4294967196 48000).1 50 48000).2 :=
  ptp_rtp_extension_monotone.2.2.2 clkP 4294967196 50 48000 0 1 rfl
    (by decide) (by decide) (by decide) (by decide) (by decide)
    (by decide) (by decide) (by decide) (by decide) (by decide)
    (by decide) (by decide) (by decide)

/-- Concrete initialized jitter buffer used as C3 witness input
(anchored at sequence 5000). -/
def jbW : JitterBuffer :=
  { depth_ms := 4, buffer_size := 16, loss_threshold := 16
    , packets := fun _ =>
        { valid := false, seq := 0, rtp_ts := 0, arrival_ptp_ns := 0
          , payload_len := 0, payload := [] }
    , initialized := true, next_seq := 5000, highest_seq := 5000
    , playout_time_ns := 0, packet_duration_ns := 1000000
    , stats := { packets_received := 0, packets_played := 0
                 , packets_late := 0, packets_lost := 0
                 , packets_reordered := 0, buffer_overflows := 0
                 , current_depth := 0, max_depth := 0 } }

/-- C3 witness: the insert theorem applied to the concrete buffer `jbW`,
once with sequence 4999 (Dnext = -1: late) and once with sequence 3000
(Dnext = -2000: stream restart). -/
theorem jb_insert_late_and_restart_witness :
    (audyn_jb_insert jbW 4999 7 1000 (some [1, 2]) 2 =
      ({ jbW with stats := { jbW.stats with
          packets_received := jbW.stats.packets_received + 1
          , packets_late := jbW.stats.packets_late + 1 } }, -1)) ∧
    ((audyn_jb_insert jbW 3000 7 1000 (some [1, 2]) 2).2 = 0 ∧
      (audyn_jb_insert jbW 3000 7 1000 (some [1, 2]) 2).1.next_seq
        = 3000 ∧
      (audyn_jb_insert jbW 3000 7 1000 (some [1, 2]) 2).1.highest_seq
        = 3000 ∧
      (audyn_jb_insert jbW 3000 7 1000 (some [1, 2])
          2).1.playout_time_ns = 1000 + jbW.depth_ms * 1000000 ∧
      (audyn_jb_insert jbW 3000 7 1000 (some [1, 2]) 2).1.initialized
        = true ∧
      (audyn_jb_insert jbW 3000 7 1000 (some [1, 2])
          2).1.stats.packets_received =
            jbW.stats.packets_received + 1 ∧
      (audyn_jb_insert jbW 3000 7 1000 (some [1, 2])
          2).1.stats.packets_late = jbW.stats.packets_late ∧
      (audyn_jb_insert jbW 3000 7 1000 (some [1, 2])
          2).1.stats.packets_lost = jbW.stats.packets_lost ∧
      (audyn_jb_insert jbW 3000 7 1000 (some [1, 2])
          2).1.stats.packets_played = jbW.stats.packets_played ∧
      (audyn_jb_insert jbW 3000 7 1000 (some [1, 2])
          2).1.stats.packets_reordered = jbW.stats.packets_reordered ∧
      (audyn_jb_insert jbW 3000 7 1000 (some [1, 2])
          2).1.stats.buffer_overflows = jbW.stats.buffer_overflows) :=
  ⟨(jb_insert_late_and_restart jbW 4999 7 1000 [1, 2] 2 rfl
      (by decide) (by decide) (by decide)).1 (by decide) (by decide),
    (jb_insert_late_and_restart jbW 3000 7 1000 [1, 2] 2 rfl
      (by decide) (by decide) (by decide)).2 (by decide)⟩

/-- C7 witness: the amended close theorem applied to concrete closed
sinks (the Opus sink `opusW` after one close; the WAV sink `wavW` after
one close). -/
theorem sink_close_idempotent_witness :
    (audyn_opus_sink_close (audyn_opus_sink_close opusW).1 =
      ((audyn_opus_sink_close opusW).1, 0) ∧
    (audyn_opus_sink_close
        (audyn_opus_sink_close (audyn_opus_sink_close opusW).1).1 =
      ((audyn_opus_sink_close (audyn_opus_sink_close opusW).1).1, 0)) ∧
    audyn_wav_sink_close (audyn_wav_sink_close wavW).1 =
      ((audyn_wav_sink_close wavW).1, -1)) :=
  sink_close_idempotent (audyn_opus_sink_close opusW).1
    (audyn_wav_sink_close wavW).1 (opus_close_sets_closed opusW) rfl

/-- **C10**: every pool and queue operation is total on a NULL object or
NULL handle: acquire on a NULL pool returns none, release of a NULL
frame or of a frame with a NULL pool back-reference is a no-op, push of
a NULL handle or onto a NULL queue is rejected (returns 0), and pop from
a NULL queue returns NULL; in each case the state is unmodified. -/
theorem null_argument_safety :
    audyn_frame_acquire none = (none, none) ∧
    (∀ p, audyn_frame_release p none = p) ∧
    (∀ p i, audyn_frame_release p (some { hasPool := false, idx := i }) = p) ∧
    (∀ ptr, audyn_audio_queue_push none ptr = (none, 0)) ∧
    (∀ q, audyn_audio_queue_push (some q) 0 = (some q, 0)) ∧
    audyn_audio_queue_pop none = (none, none) :=
  ⟨rfl, fun _ => rfl, fun _ _ => rfl, fun _ => rfl,
    fun q => by simp [audyn_audio_queue_push], rfl⟩
